import Mathlib

/-!
Verification of the workflow engine repository (`app/` package: `tasks.py`,
`node_handlers.py`, `workflow_engine.py`, `schemas/nodes.py`, plus the legacy
top-level `tasks.py` variable resolver).

Python dynamic values are shallowly embedded as the recursive type `PyVal`;
Python `float` is modelled as an exact rational (no claim under consideration
depends on rounding).  Raising code is embedded with `Except Exc`, where `Exc`
carries the Python exception class (the scheduler's `except` clause
discriminates on classes).  Mappings are association lists in insertion order,
matching Python `dict` semantics.
-/

/-- Python exception classes that the code distinguishes.  `httpxHTTPError`
stands for `httpx.HTTPError` and all its subclasses as re-raised by `do_http`
(timeouts are converted to `ValueError` inside `do_http` before escaping). -/
inductive ExcClass where
  | valueError
  | keyError
  | typeError
  | httpxHTTPError
  | attributeError
  | otherExc
deriving DecidableEq, Repr

/-- A raised Python exception: its class and its message (`str(e)`). -/
structure Exc where
  cls : ExcClass
  msg : String
deriving DecidableEq, Repr

/-- A Python value as it appears in workflow parameters, execution state and
handler results: `None`, `bool`, `int`, `float` (modelled exactly as `Rat`),
`str`, `list`, `dict` (insertion-ordered association list). -/
inductive PyVal where
  | none
  | bool (b : Bool)
  | int (n : Int)
  | float (q : Rat)
  | str (s : String)
  | list (l : List PyVal)
  | dict (d : List (String × PyVal))

namespace PyVal

/-- The numeric view Python uses for arithmetic comparison: `bool` is a
subclass of `int` (`True == 1`), ints and floats compare exactly. -/
def asNum : PyVal → Option Rat
  | .bool b => some (if b then 1 else 0)
  | .int n => some (n : Rat)
  | .float q => some q
  | _ => Option.none

/-! `pyEq`'s dictionary case scans the right-hand dict for each key of the
left-hand one, which is not structural recursion; it is therefore written
with an explicit fuel, consumed once per recursive call.  Any fuel at least
`pySize a + pySize b` bounds the call depth, and the wrapper supplies exactly
that, so concrete computations reduce inside the kernel.  The case structure
mirrors the source exactly. -/

mutual

/-- Structural size of a value (an upper bound for recursion depth). -/
def pySize : PyVal → Nat
  | .list l => 1 + pySizeList l
  | .dict d => 1 + pySizeDict d
  | _ => 1

def pySizeList : List PyVal → Nat
  | [] => 1
  | v :: rest => 1 + pySize v + pySizeList rest

def pySizeDict : List (String × PyVal) → Nat
  | [] => 1
  | (_, v) :: rest => 1 + pySize v + pySizeDict rest

end

mutual

def pyEqF : Nat → PyVal → PyVal → Bool
  | 0, _, _ => false
  | fuel + 1, a, b =>
    match a, b with
    | .none, .none => true
    | .str x, .str y => x == y
    | .list x, .list y => pyEqListF fuel x y
    | .dict x, .dict y => x.length == y.length && pyEqDictSubF fuel x y
    | a, b =>
      match a.asNum, b.asNum with
      | some x, some y => x == y
      | _, _ => false

def pyEqListF : Nat → List PyVal → List PyVal → Bool
  | 0, _, _ => false
  | _ + 1, [], [] => true
  | fuel + 1, a :: as_, b :: bs => pyEqF fuel a b && pyEqListF fuel as_ bs
  | _ + 1, _, _ => false

def pyEqDictSubF : Nat → List (String × PyVal) → List (String × PyVal) → Bool
  | 0, _, _ => false
  | _ + 1, [], _ => true
  | fuel + 1, (k, v) :: rest, b => pyEqDictLookupF fuel k v b && pyEqDictSubF fuel rest b

def pyEqDictLookupF : Nat → String → PyVal → List (String × PyVal) → Bool
  | 0, _, _, _ => false
  | _ + 1, _, _, [] => false
  | fuel + 1, k, v, (k1, v1) :: rest =>
    if k1 == k then pyEqF fuel v v1 else pyEqDictLookupF fuel k v rest

end

/-- Python `==` on embedded values.  Numbers (`bool`/`int`/`float`) compare
numerically across types; strings compare as strings; lists compare
pointwise; dicts compare order-insensitively (same number of keys and every
key of the left dict bound to an equal value in the right one — equivalent to
Python `dict.__eq__` since Python dicts have unique keys); values of
unrelated types are unequal. -/
def pyEq (a b : PyVal) : Bool := pyEqF (pySize a + pySize b) a b

/-- Python truthiness (`if content:`): `None`, `False`, zero, empty string,
empty list and empty dict are falsy; everything else is truthy. -/
def pyTruthy : PyVal → Bool
  | .none => false
  | .bool b => b
  | .int n => n != 0
  | .float q => q != 0
  | .str s => s != ""
  | .list l => !l.isEmpty
  | .dict d => !d.isEmpty

/-- The Python type name, as used in TypeError messages. -/
def typeName : PyVal → String
  | .none => "NoneType"
  | .bool _ => "bool"
  | .int _ => "int"
  | .float _ => "float"
  | .str _ => "str"
  | .list _ => "list"
  | .dict _ => "dict"

/-- Rendering of a Python float.  Other than for whole numbers (where Python
prints `N.0`) float formatting depends on binary rounding, which this exact
rational model does not reproduce; no theorem below stringifies a non-whole
float. -/
def floatRepr (q : Rat) : String :=
  if q.den = 1 then toString q.num ++ ".0" else toString q.num ++ "/" ++ toString q.den

mutual

/-- Python `repr` on embedded values (used by `str` for elements of lists and
dicts).  String escaping inside quotes is not modelled; no theorem below
relies on it. -/
def pyRepr : PyVal → String
  | .none => "None"
  | .bool b => if b then "True" else "False"
  | .int n => toString n
  | .float q => floatRepr q
  | .str s => "\x27" ++ s ++ "\x27"
  | .list l => "[" ++ ", ".intercalate (pyReprList l) ++ "]"
  | .dict d => "\x7b" ++ ", ".intercalate (pyReprDict d) ++ "\x7d"

def pyReprList : List PyVal → List String
  | [] => []
  | v :: rest => pyRepr v :: pyReprList rest

def pyReprDict : List (String × PyVal) → List String
  | [] => []
  | (k, v) :: rest => ("\x27" ++ k ++ "\x27: " ++ pyRepr v) :: pyReprDict rest

end

/-- Python `str` on embedded values. -/
def pyStr : PyVal → String
  | .str s => s
  | v => pyRepr v

end PyVal

/-- `startsList l pat`: `pat` is an initial segment of `l`. -/
def startsList : List Char → List Char → Bool
  | _, [] => true
  | [], _ :: _ => false
  | c :: cs, d :: ds => c == d && startsList cs ds

/-- `hasSub l pat`: `pat` occurs as a contiguous subsequence of `l`. -/
def hasSub : List Char → List Char → Bool
  | l, pat =>
    startsList l pat ||
      match l with
      | [] => false
      | _ :: rest => hasSub rest pat

/-- Python `sub in s` on strings (substring containment). -/
def strContains (s pat : String) : Bool :=
  hasSub s.toList pat.toList

/-- Python dict lookup `d.get(k)` on an insertion-ordered association list. -/
def dictGet (d : List (String × PyVal)) (k : String) : Option PyVal :=
  match d.find? (fun p => p.1 == k) with
  | some p => some p.2
  | Option.none => Option.none

/-- Python dict assignment `d[k] = v`: overwrite in place if the key exists,
append otherwise (Python dicts keep the original insertion position). -/
def dictSet (d : List (String × PyVal)) (k : String) (v : PyVal) :
    List (String × PyVal) :=
  match d with
  | [] => [(k, v)]
  | (k1, v1) :: rest =>
    if k1 == k then (k, v) :: rest else (k1, v1) :: dictSet rest k v

namespace PyFloat

def isDigit (c : Char) : Bool := '0' ≤ c && c ≤ '9'

def digitsToNat (l : List Char) : Nat :=
  l.foldl (fun acc c => acc * 10 + (c.toNat - '0'.toNat)) 0

/-- Parse the exponent tail `e±ddd` of a float literal; `none` on garbage. -/
def parseExp (l : List Char) : Option Int :=
  match l with
  | [] => some 0
  | e :: rest =>
    if e == 'e' || e == 'E' then
      let (sgn, rest2) : Int × List Char :=
        match rest with
        | '+' :: r => (1, r)
        | '-' :: r => (-1, r)
        | r => (1, r)
      let ds := rest2.takeWhile isDigit
      if ds.isEmpty || !(rest2.dropWhile isDigit).isEmpty then Option.none
      else some (sgn * (digitsToNat ds : Int))
    else Option.none

/-- Python `float(s)` on a string, restricted to the finite-decimal grammar
`[ws][±]digits[.digits][e±digits][ws]` (no `inf`, `nan` or `_` separators,
which never arise in the claims).  Returns the exact rational value. -/
def floatOfString? (s : String) : Option Rat :=
  let l := s.toList.dropWhile (·.isWhitespace) |>.reverse.dropWhile (·.isWhitespace) |>.reverse
  let (sgn, l2) : Int × List Char :=
    match l with
    | '+' :: r => (1, r)
    | '-' :: r => (-1, r)
    | r => (1, r)
  let ipart := l2.takeWhile isDigit
  let rest := l2.dropWhile isDigit
  let (fpart, rest2) : List Char × List Char :=
    match rest with
    | '.' :: r => (r.takeWhile isDigit, r.dropWhile isDigit)
    | r => ([], r)
  if ipart.isEmpty && fpart.isEmpty then Option.none
  else
    match parseExp rest2 with
    | Option.none => Option.none
    | some e =>
      -- sgn * (ipart.fpart) * 10^e, assembled with `mkRat` over integer
      -- arithmetic (exact; kernel-reducible)
      let mant : Int := (digitsToNat ipart * 10 ^ fpart.length + digitsToNat fpart : Nat)
      let num : Int := sgn * mant
      some (if 0 ≤ e then mkRat (num * ((10 ^ e.toNat : Nat) : Int)) (10 ^ fpart.length)
        else mkRat num (10 ^ fpart.length * 10 ^ (-e).toNat))

end PyFloat

namespace PyVal

/-- `try_numeric` from `do_condition`: numbers (including `bool`, a Python
`int` subclass) pass through; a string that parses as a float is converted;
everything else is returned unchanged. -/
def try_numeric (val : PyVal) : PyVal :=
  match val with
  | .int _ | .float _ | .bool _ => val
  | .str s =>
    match PyFloat.floatOfString? s with
    | some q => .float q
    | Option.none => val
  | _ => val

/-- TypeError raised by Python ordering comparison on incompatible types. -/
def cmpError (op : String) (a b : PyVal) : Exc :=
  ⟨.typeError,
    "\x27" ++ op ++ "\x27 not supported between instances of \x27" ++
      typeName a ++ "\x27 and \x27" ++ typeName b ++ "\x27"⟩

/-- Lexicographic `<` on char lists (Python string ordering for ASCII). -/
def strLtL : List Char → List Char → Bool
  | [], [] => false
  | [], _ :: _ => true
  | _ :: _, [] => false
  | c :: cs, d :: ds => if c == d then strLtL cs ds else decide (c < d)

/-- Apply an ordering operator to two rationals. -/
def ratOp (op : String) (x y : Rat) : Bool :=
  if op == "<" then decide (x < y)
  else if op == ">" then decide (y < x)
  else if op == "<=" then decide (x ≤ y)
  else decide (y ≤ x)

/-- Apply an ordering operator to two strings. -/
def strOp (op : String) (a b : String) : Bool :=
  if op == "<" then strLtL a.toList b.toList
  else if op == ">" then strLtL b.toList a.toList
  else if op == "<=" then !strLtL b.toList a.toList
  else !strLtL a.toList b.toList

mutual

/-- Python ordering comparison (`<`, `>`, `<=`, `>=`).  Numbers compare
numerically (across `bool`/`int`/`float`), strings lexicographically, lists
lexicographically by first difference; any other pairing raises `TypeError`,
exactly as CPython does. -/
def pyOrder (op : String) : PyVal → PyVal → Except Exc Bool
  | .str a, .str b => .ok (strOp op a b)
  | .list a, .list b => pyOrderList op a b
  | a, b =>
    match a.asNum, b.asNum with
    | some x, some y => .ok (ratOp op x y)
    | _, _ => .error (cmpError op a b)

def pyOrderList (op : String) : List PyVal → List PyVal → Except Exc Bool
  | [], [] => .ok (op == "<=" || op == ">=")
  | [], _ :: _ => .ok (op == "<" || op == "<=")
  | _ :: _, [] => .ok (op == ">" || op == ">=")
  | a :: as_, b :: bs =>
    if pyEq a b then pyOrderList op as_ bs else pyOrder op a b

end

end PyVal

namespace AppTasks

open PyVal

/-- `do_print` from `tasks.py`: returns its argument unchanged. -/
def do_print (content : PyVal) : PyVal := content

/-- `float(n)` as used by `do_calc`; `()` marks a conversion failure
(Python `ValueError`/`TypeError`, both re-raised identically by `do_calc`). -/
def pyFloatConv (v : PyVal) : Except Unit Rat :=
  match v with
  | .int n => .ok (n : Rat)
  | .float q => .ok q
  | .bool b => .ok (if b then 1 else 0)
  | .str s =>
    match PyFloat.floatOfString? s with
    | some q => .ok q
    | Option.none => .error ()
  | _ => .error ()

/-- The division fold of `do_calc`'s `divide` branch. -/
def divFold (res : Rat) : List Rat → Except Exc Rat
  | [] => .ok res
  | n :: rest =>
    if n == 0 then .error ⟨.valueError, "Division by zero"⟩
    else divFold (res / n) rest

/-- `do_calc` from `tasks.py`.  Empty argument list returns the int `0`;
otherwise all arguments are coerced to float and left-folded.  The
conversion-failure message renders the arguments as a list rather than a
Python tuple; no theorem inspects that message. -/
def do_calc (op : PyVal) (args : List PyVal) : Except Exc PyVal :=
  if args.isEmpty then .ok (.int 0)
  else
    match args.mapM pyFloatConv with
    | .error _ =>
      .error ⟨.valueError, "Cannot convert to number: " ++ pyRepr (.list args)⟩
    | .ok nums =>
      match op with
      | .str "add" => .ok (.float (nums.foldl (· + ·) 0))
      | .str "sub" => .ok (.float (nums.tail.foldl (· - ·) (nums.headD 0)))
      | .str "mul" => .ok (.float (nums.tail.foldl (· * ·) (nums.headD 0)))
      | .str "divide" =>
        (PyVal.float <$> divFold (nums.headD 0) nums.tail)
      | _ =>
        .error ⟨.valueError,
          "Unknown operation: " ++ pyStr op ++ ". Valid: add, sub, mul, divide"⟩

/-- `do_condition` from `tasks.py`: coerce each side independently with
`try_numeric`, then dispatch on the operator string. -/
def do_condition (left operator right : PyVal) : Except Exc Bool :=
  let left_val := try_numeric left
  let right_val := try_numeric right
  match operator with
  | .str "<" => pyOrder "<" left_val right_val
  | .str ">" => pyOrder ">" left_val right_val
  | .str "==" => .ok (pyEq left_val right_val)
  | .str "!=" => .ok (!pyEq left_val right_val)
  | .str ">=" => pyOrder ">=" left_val right_val
  | .str "<=" => pyOrder "<=" left_val right_val
  | _ =>
    .error ⟨.valueError,
      "Invalid operator: " ++ pyStr operator ++ ". Valid: <, >, ==, !=, >=, <="⟩

end AppTasks


/-! ### Character classes and list-length helpers for the path grammar -/

/-- `\w` of Python `re` (ASCII fragment; Unicode word characters never arise
in the claims). -/
def isWordChar (c : Char) : Bool := c.isAlphanum || c == '_'

/-- The quote characters of the path grammar's character classes. -/
def isQuote (c : Char) : Bool := c == '\'' || c == '"'

theorem dropWhile_length_le {α} (p : α → Bool) (l : List α) :
    (l.dropWhile p).length ≤ l.length := by
  induction l with
  | nil => simp [List.dropWhile]
  | cons c rest ih =>
    by_cases h : p c <;> simp [List.dropWhile, h] <;> omega

namespace AppTasks

open PyVal PyFloat

/-- The token scanner of `get_value_from_path` (`app/tasks.py`): the leftmost
non-overlapping matches of `['\"]([^'\"]+)['\"]|([\w]+)`, i.e. quoted strings
or word runs, dots and brackets discarded.  At a quote with no non-empty
quoted token, neither alternative matches there and the scan advances one
character, as in Python `re.findall`. -/
def findTokensF : Nat → List Char → List String
  | 0, _ => []
  | fuel + 1, l =>
    match l with
    | [] => []
    | c :: rest =>
      if isQuote c then
        let tok := rest.takeWhile (fun d => !isQuote d)
        let rest2 := rest.dropWhile (fun d => !isQuote d)
        if rest2.isEmpty || tok.isEmpty then findTokensF fuel rest
        else String.mk tok :: findTokensF fuel rest2.tail
      else if isWordChar c then
        String.mk (c :: rest.takeWhile isWordChar) ::
          findTokensF fuel (rest.dropWhile isWordChar)
      else findTokensF fuel rest

def findTokens (l : List Char) : List String := findTokensF l.length l

/-- One descent step of `get_value_from_path`: dictionary key access, list
index access for a decimal token, `ValueError` otherwise.  All failure
messages use the full original path, as in the source. -/
def gvStep (original_path : String) (cur : PyVal) (part : String) :
    Except Exc PyVal :=
  match cur with
  | .dict d =>
    match dictGet d part with
    | some v => .ok v
    | Option.none =>
      .error ⟨.valueError,
        "Key \x27" ++ part ++ "\x27 not found in " ++ original_path⟩
  | .list l =>
    if part.toList ≠ [] ∧ part.toList.all isDigit then
      let idx := digitsToNat part.toList
      if h : idx < l.length then .ok (l.get ⟨idx, h⟩)
      else
        .error ⟨.valueError,
          "Index " ++ part ++ " out of bounds in " ++ original_path⟩
    else
      .error ⟨.valueError,
        "Cannot access \x27" ++ part ++ "\x27 on <class \x27" ++ typeName cur ++
          "\x27> in " ++ original_path⟩
  | _ =>
    .error ⟨.valueError,
      "Cannot access \x27" ++ part ++ "\x27 on <class \x27" ++ typeName cur ++
        "\x27> in " ++ original_path⟩

/-- `get_value_from_path` from `app/tasks.py`: strip the leading `$`,
tokenise leniently, then descend.  An empty token list returns the stripped
path itself (as a string); a missing root raises `ValueError` listing the
available roots. -/
def get_value_from_path (workflow_results : List (String × PyVal))
    (path : String) : Except Exc PyVal :=
  let original_path := path
  -- `path.removeprefix("$")`, written on the character list so that it
  -- reduces inside the kernel
  let stripped :=
    match path.toList with
    | '$' :: rest => String.mk rest
    | _ => path
  match findTokens stripped.toList with
  | [] => .ok (.str stripped)
  | root :: restParts =>
    match dictGet workflow_results root with
    | Option.none =>
      .error ⟨.valueError,
        "Variable \x27" ++ root ++ "\x27 not found. Available: " ++
          pyRepr (.list (workflow_results.map (fun p => .str p.1)))⟩
    | some v0 =>
      restParts.foldlM (gvStep original_path) v0

/-! ### The path grammar

`\$(?:(?:['\"][^'\"]+['\"])|(?:[\w]+))(?:(?:\.[\w]+)|(?:\[['\"][^'\"]+['\"]\])|(?:\[\d+\]))*`

embedded as a deterministic recogniser.  Every quantifier in the pattern is
forced (word runs stop at `.`/`[`, quoted runs stop at the first quote, digit
runs stop at `]`), so maximal munch is the only viable parse and the
recogniser accepts exactly the regular language of the pattern. -/

/-- Close a quoted token: the scan stopped at a quote character (either
kind, per the `['\"]` class); consume it. -/
def closeQuote : List Char → Option (List Char)
  | q :: rest2 => if isQuote q then some rest2 else Option.none
  | [] => Option.none

/-- Close a quoted bracket segment: a quote character then `]`. -/
def closeQuoteBracket : List Char → Option (List Char)
  | q :: c :: rest3 =>
    if isQuote q && c == ']' then some rest3 else Option.none
  | _ => Option.none

/-- Close a numeric bracket segment: the digits ran out, `]` must follow. -/
def closeBracket : List Char → Option (List Char)
  | c :: rest3 => if c == ']' then some rest3 else Option.none
  | [] => Option.none

/-- Parse the root of a path (what follows `$`): a quoted name
(`['\"][^'\"]+['\"]`) or a word run (`[\w]+`).  Returns the remainder. -/
def parseRoot : List Char → Option (List Char)
  | [] => Option.none
  | q :: rest =>
    if isQuote q then
      if (rest.takeWhile (fun c => !isQuote c)).isEmpty then Option.none
      else closeQuote (rest.dropWhile (fun c => !isQuote c))
    else if isWordChar q then some (rest.dropWhile isWordChar)
    else Option.none

/-- Parse the inside of a bracket segment: `'key']` / `\"key\"]` or
`digits]`. -/
def parseBracket : List Char → Option (List Char)
  | [] => Option.none
  | q :: rest2 =>
    if isQuote q then
      if (rest2.takeWhile (fun c => !isQuote c)).isEmpty then Option.none
      else closeQuoteBracket (rest2.dropWhile (fun c => !isQuote c))
    else if PyFloat.isDigit q then closeBracket ((q :: rest2).dropWhile PyFloat.isDigit)
    else Option.none

/-- Parse one continuation segment of a path: `.word` or `[...]`. -/
def parseExt : List Char → Option (List Char)
  | [] => Option.none
  | c :: rest =>
    if c == '.' then
      if (rest.takeWhile isWordChar).isEmpty then Option.none
      else some (rest.dropWhile isWordChar)
    else if c == '[' then parseBracket rest
    else Option.none

theorem closeQuote_length {l r : List Char} (h : closeQuote l = some r) :
    r.length + 1 ≤ l.length := by
  match l with
  | [] => simp [closeQuote] at h
  | q :: rest2 =>
    unfold closeQuote at h
    by_cases hq : isQuote q
    · simp only [hq, if_pos, Option.some.injEq] at h
      subst h; simp
    · simp [hq] at h

theorem closeQuoteBracket_length {l r : List Char}
    (h : closeQuoteBracket l = some r) : r.length + 2 ≤ l.length := by
  match l with
  | [] => simp [closeQuoteBracket] at h
  | [q] => simp [closeQuoteBracket] at h
  | q :: c :: rest3 =>
    unfold closeQuoteBracket at h
    by_cases hq : isQuote q && c == ']'
    · simp only [hq, if_pos, Option.some.injEq] at h
      subst h; simp
    · simp [hq] at h

theorem closeBracket_length {l r : List Char} (h : closeBracket l = some r) :
    r.length + 1 ≤ l.length := by
  match l with
  | [] => simp [closeBracket] at h
  | c :: rest3 =>
    unfold closeBracket at h
    by_cases hc : c == ']'
    · simp only [hc, if_pos, Option.some.injEq] at h
      subst h; simp
    · simp [hc] at h

theorem parseRoot_length_lt {l r : List Char} (h : parseRoot l = some r) :
    r.length < l.length := by
  match l with
  | [] => simp [parseRoot] at h
  | q :: rest =>
    unfold parseRoot at h
    by_cases hq : isQuote q
    · simp only [hq, if_pos] at h
      by_cases hw : (rest.takeWhile (fun c => !isQuote c)).isEmpty
      · simp [hw] at h
      · simp only [hw, if_neg, Bool.not_eq_true] at h
        have h1 := closeQuote_length h
        have h2 := dropWhile_length_le (fun c => !isQuote c) rest
        simp only [List.length_cons]
        omega
    · simp only [hq, if_neg, Bool.not_eq_true] at h
      by_cases hwc : isWordChar q
      · simp only [hwc, if_pos, Option.some.injEq] at h
        subst h
        have := dropWhile_length_le isWordChar rest
        simp only [List.length_cons]
        omega
      · simp [hwc] at h

theorem parseBracket_length_lt {l r : List Char} (h : parseBracket l = some r) :
    r.length < l.length := by
  match l with
  | [] => simp [parseBracket] at h
  | q :: rest2 =>
    unfold parseBracket at h
    by_cases hq : isQuote q
    · simp only [hq, if_pos] at h
      by_cases hw : (rest2.takeWhile (fun c => !isQuote c)).isEmpty
      · simp [hw] at h
      · simp only [hw, if_neg, Bool.not_eq_true] at h
        have h1 := closeQuoteBracket_length h
        have h2 := dropWhile_length_le (fun c => !isQuote c) rest2
        simp only [List.length_cons]
        omega
    · simp only [hq, if_neg, Bool.not_eq_true] at h
      by_cases hd : PyFloat.isDigit q
      · simp only [hd, if_pos] at h
        have h1 := closeBracket_length h
        have h2 := dropWhile_length_le PyFloat.isDigit (q :: rest2)
        simp only [List.length_cons] at *
        omega
      · simp [hd] at h

theorem parseExt_length_lt {l r : List Char} (h : parseExt l = some r) :
    r.length < l.length := by
  match l with
  | [] => simp [parseExt] at h
  | c :: rest =>
    unfold parseExt at h
    by_cases hdot : c == '.'
    · simp only [hdot, if_pos] at h
      by_cases hw : (rest.takeWhile isWordChar).isEmpty
      · simp [hw] at h
      · simp only [hw, if_neg, Bool.not_eq_true, Option.some.injEq] at h
        subst h
        have := dropWhile_length_le isWordChar rest
        simp only [List.length_cons]
        omega
    · simp only [hdot, if_neg, Bool.not_eq_true] at h
      by_cases hbr : c == '['
      · simp only [hbr, if_pos] at h
        have := parseBracket_length_lt h
        simp only [List.length_cons]
        omega
      · simp [hbr] at h

/-- The Kleene star of continuation segments, required to reach the end of
the string (`re.fullmatch`). -/
def extsEndF : Nat → List Char → Bool
  | 0, l => l.isEmpty
  | fuel + 1, l =>
    match l with
    | [] => true
    | _ =>
      match parseExt l with
      | some r => extsEndF fuel r
      | Option.none => false

def extsEnd (l : List Char) : Bool := extsEndF l.length l

/-- `re.fullmatch` of the path pattern: the whole string is `$`, a root, and
a (possibly empty) chain of continuation segments. -/
def pathFullMatch (s : String) : Bool :=
  match s.toList with
  | '$' :: rest =>
    match parseRoot rest with
    | some r => extsEnd r
    | Option.none => false
  | _ => false

/-- The Kleene star of continuation segments, maximal munch (for a match
inside a longer string): consume segments while they parse, and return the
remainder. -/
def extsMaxF : Nat → List Char → List Char
  | 0, l => l
  | fuel + 1, l =>
    match parseExt l with
    | some r => extsMaxF fuel r
    | Option.none => l

def extsMax (l : List Char) : List Char := extsMaxF l.length l

theorem extsMaxF_length_le (fuel : Nat) (l : List Char) :
    (extsMaxF fuel l).length ≤ l.length := by
  induction fuel generalizing l with
  | zero => simp [extsMaxF]
  | succ fuel ih =>
    rw [extsMaxF]
    split
    · next r heq =>
      have h1 := parseExt_length_lt heq
      have h2 := ih r
      omega
    · exact le_rfl

theorem extsMax_length_le (l : List Char) : (extsMax l).length ≤ l.length :=
  extsMaxF_length_le l.length l

/-- The inner `resolve_template_string` of the template branch: resolve one
matched occurrence; on `ValueError` keep the original text verbatim
(`except ValueError: return match.group(0)`); any other exception class would
propagate. -/
def resolve_template_string (workflow_results : List (String × PyVal))
    (tok : String) : Except Exc String :=
  match get_value_from_path workflow_results tok with
  | .ok v => .ok (pyStr v)
  | .error e => if e.cls = .valueError then .ok tok else .error e

/-- The scan of `re.sub(pattern, resolve_template_string, task)`: at each
`$` try to match the path pattern (leftmost, maximal munch); replace matched
occurrences via `resolve_template_string`, copy everything else. -/
def templateGoF (workflow_results : List (String × PyVal)) :
    Nat → List Char → Except Exc (List Char)
  | 0, _ => .ok []
  | fuel + 1, l =>
    match l with
    | [] => .ok []
    | c :: rest =>
      if c == '$' then
        match parseRoot rest with
        | some r =>
          let r2 := extsMax r
          let consumed := (c :: rest).take ((c :: rest).length - r2.length)
          do
            let piece ← resolve_template_string workflow_results (String.mk consumed)
            let tail ← templateGoF workflow_results fuel r2
            .ok (piece.toList ++ tail)
        | Option.none => (c :: ·) <$> templateGoF workflow_results fuel rest
      else (c :: ·) <$> templateGoF workflow_results fuel rest

def templateGo (workflow_results : List (String × PyVal)) (l : List Char) :
    Except Exc (List Char) :=
  templateGoF workflow_results l.length l

mutual

/-- `resolve_all_variables` from `app/tasks.py`: recursively resolve `$`
variables in a task configuration.  Dicts and lists recurse; a string
containing `$` is either a strict variable (full match: return the resolved
value with its type) or a template (substitute occurrences, keeping failed
ones verbatim); anything else is returned unchanged. -/
def resolve_all_variables (workflow_results : List (String × PyVal)) :
    PyVal → Except Exc PyVal
  | .dict d => PyVal.dict <$> resolveDict workflow_results d
  | .list l => PyVal.list <$> resolveList workflow_results l
  | .str s =>
    if strContains s "$" then
      if pathFullMatch s then get_value_from_path workflow_results s
      else (fun l => PyVal.str (String.mk l)) <$> templateGo workflow_results s.toList
    else .ok (.str s)
  | v => .ok v

def resolveList (workflow_results : List (String × PyVal)) :
    List PyVal → Except Exc (List PyVal)
  | [] => .ok []
  | v :: rest => do
    let v2 ← resolve_all_variables workflow_results v
    let rest2 ← resolveList workflow_results rest
    .ok (v2 :: rest2)

def resolveDict (workflow_results : List (String × PyVal)) :
    List (String × PyVal) → Except Exc (List (String × PyVal))
  | [] => .ok []
  | (k, v) :: rest => do
    let v2 ← resolve_all_variables workflow_results v
    let rest2 ← resolveDict workflow_results rest
    .ok ((k, v2) :: rest2)

end

end AppTasks

namespace LegacyTasks

open PyVal PyFloat

/-- A character of the legacy path pattern `\$[\w.]+`. -/
def isPathChar (c : Char) : Bool := isWordChar c || c == '.'

/-- Python `str.split(".")`: dot-separated segments, empties preserved. -/
def splitDots : List Char → List String
  | [] => [""]
  | c :: rest =>
    let r := splitDots rest
    if c == '.' then "" :: r
    else
      match r with
      | seg :: tl => String.mk (c :: seg.toList) :: tl
      | [] => [String.mk [c]]

/-- One descent step of the legacy `get_value_from_path` (top-level
`tasks.py`): list access checks the index range explicitly, dict access
reports the available keys; every message names the original path and the
dotted path walked so far. -/
def gvStep (original_path current_path : String) (cur : PyVal)
    (part : String) : Except Exc PyVal :=
  match cur with
  | .list l =>
    if part.toList ≠ [] ∧ part.toList.all isDigit then
      let idx := digitsToNat part.toList
      if h : idx < l.length then .ok (l.get ⟨idx, h⟩)
      else
        .error ⟨.valueError,
          "Variable \x27" ++ original_path ++ "\x27 failed at \x27" ++
            current_path ++ "\x27: Index " ++ toString idx ++
            " out of range (list has " ++ toString l.length ++ " items)"⟩
    else
      .error ⟨.valueError,
        "Variable \x27" ++ original_path ++ "\x27 failed at \x27" ++
          current_path ++ "\x27: Expected numeric index for list, got \x27" ++
          part ++ "\x27"⟩
  | .dict d =>
    match dictGet d part with
    | some v => .ok v
    | Option.none =>
      .error ⟨.valueError,
        "Variable \x27" ++ original_path ++ "\x27 failed at \x27" ++
          current_path ++ "\x27: Key \x27" ++ part ++ "\x27 not found. Available: " ++
          pyRepr (.list (d.map (fun p => .str p.1)))⟩
  | _ =>
    .error ⟨.valueError,
      "Variable \x27" ++ original_path ++ "\x27 failed at \x27" ++
        current_path ++ "\x27: Cannot access \x27" ++ part ++ "\x27 on " ++
        typeName cur⟩

/-- The descent loop of the legacy `get_value_from_path`, carrying the dotted
path walked so far for error messages. -/
def gvLoop (original_path : String) :
    String → PyVal → List String → Except Exc PyVal
  | _, cur, [] => .ok cur
  | current_path, cur, part :: rest => do
    let next_path := current_path ++ "." ++ part
    let v ← gvStep original_path next_path cur part
    gvLoop original_path next_path v rest

/-- `get_value_from_path` from the top-level `tasks.py`: strip `$`, split on
dots, look up the root, then descend part by part. -/
def get_value_from_path (workflow_results : List (String × PyVal))
    (path : String) : Except Exc PyVal :=
  let original_path := path
  let stripped :=
    match path.toList with
    | '$' :: rest => String.mk rest
    | _ => path
  let parts := splitDots stripped.toList
  -- `str.split` always returns at least one element, so `parts[0]` is safe.
  let root_key := parts.headD ""
  match dictGet workflow_results root_key with
  | Option.none =>
    .error ⟨.valueError,
      "Variable \x27" ++ original_path ++ "\x27 not found. \x27" ++ root_key ++
        "\x27 doesn\x27t exist. Available: " ++
        pyRepr (.list (workflow_results.map (fun p => .str p.1)))⟩
  | some v0 => gvLoop original_path root_key v0 parts.tail

/-- `re.fullmatch` of the legacy pattern `\$[\w.]+`. -/
def pathFullMatch (s : String) : Bool :=
  match s.toList with
  | '$' :: rest => !rest.isEmpty && rest.all isPathChar
  | _ => false

/-- The scan of the legacy `re.sub(r"\$[\w.]+", resolve_template_string,
task)`.  Unlike the `app` version, the inner function has no
`except ValueError` handler, so a failed resolution propagates. -/
def templateGoF (workflow_results : List (String × PyVal)) :
    Nat → List Char → Except Exc (List Char)
  | 0, _ => .ok []
  | fuel + 1, l =>
    match l with
    | [] => .ok []
    | c :: rest =>
      if c == '$' then
        let tok := rest.takeWhile isPathChar
        if tok.isEmpty then (c :: ·) <$> templateGoF workflow_results fuel rest
        else do
          let v ← get_value_from_path workflow_results (String.mk (c :: tok))
          let tail ← templateGoF workflow_results fuel (rest.dropWhile isPathChar)
          .ok ((pyStr v).toList ++ tail)
      else (c :: ·) <$> templateGoF workflow_results fuel rest

def templateGo (workflow_results : List (String × PyVal)) (l : List Char) :
    Except Exc (List Char) :=
  templateGoF workflow_results l.length l

mutual

/-- `resolve_all_variables(workflow_results, task, skip_keys)` from the
top-level `tasks.py`: like the `app` version but with `skip_keys` — a dict
entry whose key is in `skip_keys` is passed through unresolved — and with the
legacy dot-only path grammar.  `skip_keys=None` defaults to the empty set. -/
def resolve_all_variables (workflow_results : List (String × PyVal))
    (skip_keys : List String) : PyVal → Except Exc PyVal
  | .dict d => PyVal.dict <$> resolveDict workflow_results skip_keys d
  | .list l => PyVal.list <$> resolveList workflow_results skip_keys l
  | .str s =>
    if strContains s "$" then
      if pathFullMatch s then get_value_from_path workflow_results s
      else (fun l => PyVal.str (String.mk l)) <$> templateGo workflow_results s.toList
    else .ok (.str s)
  | v => .ok v

def resolveList (workflow_results : List (String × PyVal))
    (skip_keys : List String) : List PyVal → Except Exc (List PyVal)
  | [] => .ok []
  | v :: rest => do
    let v2 ← resolve_all_variables workflow_results skip_keys v
    let rest2 ← resolveList workflow_results skip_keys rest
    .ok (v2 :: rest2)

def resolveDict (workflow_results : List (String × PyVal))
    (skip_keys : List String) :
    List (String × PyVal) → Except Exc (List (String × PyVal))
  | [] => .ok []
  | (k, v) :: rest => do
    let v2 ←
      if skip_keys.contains k then pure v
      else resolve_all_variables workflow_results skip_keys v
    let rest2 ← resolveDict workflow_results skip_keys rest
    .ok ((k, v2) :: rest2)

end

end LegacyTasks

namespace AppTasks

open PyVal

/-- An HTTP response as the oracle delivers it: status, headers, the value
`response.json()` would produce, and the body text. -/
structure HttpResponse where
  status_code : Int
  headers : List (String × String)
  jsonVal : PyVal
  text : String

/-- The outcome of one network attempt, abstracting the `httpx` client:
a response, an `httpx.TimeoutException`, or another transport-level
exception (all `httpx` exceptions are `httpx.HTTPError` subclasses). -/
inductive NetResult where
  | resp (r : HttpResponse)
  | timeout (msg : String)
  | transport (msg : String)

/-- What `do_http` produced, plus the retry trace: how many attempts were
made and how many `retry_delay` sleeps happened between them. -/
structure HttpOutcome where
  result : Except Exc PyVal
  attempts : Nat
  waits : Nat

/-- Response shaping in `do_http`: JSON content types return the decoded
body, anything else returns `{status_code, text, headers}`. -/
def shapeResponse (r : HttpResponse) : PyVal :=
  let content_type :=
    ((r.headers.find? (fun p => p.1 == "content-type")).map Prod.snd).getD ""
  if strContains content_type "application/json" then r.jsonVal
  else
    .dict [("status_code", .int r.status_code), ("text", .str r.text),
      ("headers", .dict (r.headers.map (fun p => (p.1, PyVal.str p.2))))]

/-- `method.upper()` plus the `match` over supported methods.  A non-string
method raises `AttributeError` (no `.upper`); an unknown method string raises
`ValueError`.  Both are raised inside the `try`, so both take the generic
retry path. -/
def methodCheck (method : PyVal) : Except Exc Unit :=
  match method with
  | .str s =>
    let u := String.mk (s.toList.map Char.toUpper)
    if u == "GET" || u == "POST" || u == "PUT" || u == "PATCH" || u == "DELETE"
    then .ok ()
    else .error ⟨.valueError, "Unsupported HTTP method: " ++ s⟩
  | v =>
    .error ⟨.attributeError,
      "\x27" ++ typeName v ++ "\x27 object has no attribute \x27upper\x27"⟩

/-- How one attempt of the `try` body failed: the dedicated
`except httpx.TimeoutException` arm or the generic `except Exception` arm. -/
inductive AttemptFail where
  | timeoutF (e : Exc)
  | genericF (e : Exc)

/-- One iteration of the attempt loop body, up to the `except` clauses. -/
def oneAttempt (net : Nat → NetResult) (method : PyVal) (i : Nat) :
    Except AttemptFail PyVal :=
  match methodCheck method with
  | .error e => .error (.genericF e)
  | .ok _ =>
    match net i with
    | .resp r => .ok (shapeResponse r)
    | .timeout m => .error (.timeoutF ⟨.httpxHTTPError, m⟩)
    | .transport m => .error (.genericF ⟨.httpxHTTPError, m⟩)

/-- The retry loop of `do_http`.  `i` is the current attempt index (for the
oracle), `remaining` the number of retries still allowed (`retries - attempt`
in the source); `totalI` is `retries + 1` as rendered in the final timeout
message.  On a timeout with no retries left a fresh `ValueError` naming the
URL and the attempt count is raised; on a generic failure with no retries
left the last exception is re-raised unchanged. -/
def httpAttempts (net : Nat → NetResult) (url method : PyVal) (totalI : Int) :
    Nat → Nat → HttpOutcome
  | i, remaining =>
    match oneAttempt net method i with
    | .ok v => ⟨.ok v, 1, 0⟩
    | .error f =>
      match remaining with
      | 0 =>
        match f with
        | .timeoutF _ =>
          ⟨.error ⟨.valueError,
            "Request to " ++ pyStr url ++ " timed out after " ++
              toString totalI ++ " attempts"⟩, 1, 0⟩
        | .genericF e => ⟨.error e, 1, 0⟩
      | r + 1 =>
        let o := httpAttempts net url method totalI (i + 1) r
        ⟨o.result, o.attempts + 1, o.waits + 1⟩

/-- `range(retries + 1)` argument handling: `retries` must be an integer
(`bool` counts); a float or anything else raises `TypeError` outside the
`try`, so it propagates out of `do_http`. -/
def rangeArg : PyVal → Except Exc Int
  | .int n => .ok n
  | .bool b => .ok (if b then 1 else 0)
  | .float _ =>
    .error ⟨.typeError, "\x27float\x27 object cannot be interpreted as an integer"⟩
  | v =>
    .error ⟨.typeError,
      "unsupported operand type(s) for +: \x27" ++ typeName v ++ "\x27 and \x27int\x27"⟩

/-- `do_http` from `tasks.py` (both copies behave identically), against a
network oracle.  `body`, `headers` and `retry_delay` do not influence the
control flow modelled here (the oracle absorbs the request payload and the
sleeps are only counted), but are kept for signature fidelity.  A negative
`retries` makes `range(retries+1)` empty and the function falls through to
`return None`. -/
def do_http (net : Nat → NetResult) (url : PyVal)
    (method : PyVal := .str "GET") (body : PyVal := .none)
    (headers : PyVal := .none) (retries : PyVal := .int 0)
    (retry_delay : PyVal := .int 1) : HttpOutcome :=
  match rangeArg retries with
  | .error e => ⟨.error e, 0, 0⟩
  | .ok r =>
    let total := r + 1
    if total ≤ 0 then ⟨.ok .none, 0, 0⟩
    else httpAttempts net url method total 0 (total - 1).toNat

end AppTasks

namespace NodeHandlers

open PyVal AppTasks

/-- `params.get(k, dflt)`. -/
def paramsGet (params : List (String × PyVal)) (k : String) (dflt : PyVal) :
    PyVal :=
  (dictGet params k).getD dflt

/-- `params[k]`: raises `KeyError` when absent (Python renders the message as
the quoted key). -/
def paramsItem (params : List (String × PyVal)) (k : String) :
    Except Exc PyVal :=
  match dictGet params k with
  | some v => .ok v
  | Option.none => .error ⟨.keyError, "\x27" ++ k ++ "\x27"⟩

/-- `handle_http`: reads `params["url"]` (KeyError when absent) and calls
`do_http`.  The surrounding `asyncio.timeout(params.get("timeout", 30))`
wrapper suspends in real time; its expiry is a real-time event outside this
shallow embedding and is not modelled. -/
def handle_http (net : Nat → NetResult) (params : List (String × PyVal))
    (input_data : PyVal) : Except Exc (PyVal × Nat) := do
  let url ← paramsItem params "url"
  let o := do_http net url (paramsGet params "method" (.str "GET"))
    (paramsGet params "body" .none) (paramsGet params "headers" .none)
    (paramsGet params "retries" (.int 0)) (paramsGet params "retry_delay" (.int 1))
  match o.result with
  | .ok v => .ok (v, 0)
  | .error e => .error e

/-- `handle_print`: `content = params.get("content", params.get("text"))`;
`if content:` is a truthiness test, so a present-but-falsy content falls back
to `input_data`. -/
def handle_print (params : List (String × PyVal)) (input_data : PyVal) :
    Except Exc (PyVal × Nat) :=
  let content :=
    match dictGet params "content" with
    | some v => v
    | Option.none => (dictGet params "text").getD .none
  if pyTruthy content then .ok (do_print content, 0)
  else .ok (input_data, 0)

/-- `handle_set`: `params.get("value", params)`. -/
def handle_set (params : List (String × PyVal)) (_input_data : PyVal) :
    Except Exc (PyVal × Nat) :=
  .ok (paramsGet params "value" (.dict params), 0)

/-- `*params["numbers"]` argument unpacking: lists unpack to elements,
strings to characters, dicts to keys; other values raise `TypeError`. -/
def starUnpack : PyVal → Except Exc (List PyVal)
  | .list l => .ok l
  | .str s => .ok (s.toList.map (fun c => PyVal.str (String.mk [c])))
  | .dict d => .ok (d.map (fun p => PyVal.str p.1))
  | v =>
    .error ⟨.typeError,
      "Value after * must be an iterable, not " ++ typeName v⟩

/-- `handle_calculate`: `do_calc(params["operation"], *params["numbers"])`. -/
def handle_calculate (params : List (String × PyVal)) (_input_data : PyVal) :
    Except Exc (PyVal × Nat) := do
  let op ← paramsItem params "operation"
  let numsV ← paramsItem params "numbers"
  let nums ← starUnpack numsV
  let r ← do_calc op nums
  .ok (r, 0)

/-- `handle_delay`: sleeps `params["seconds"]` (the real-time suspension is
not modelled; a non-numeric argument raises `TypeError` inside
`asyncio.sleep`) and returns `"Waited N seconds"`. -/
def handle_delay (params : List (String × PyVal)) (_input_data : PyVal) :
    Except Exc (PyVal × Nat) := do
  let seconds ← paramsItem params "seconds"
  match seconds.asNum with
  | some _ => .ok (.str ("Waited " ++ pyStr seconds ++ " seconds"), 0)
  | Option.none =>
    .error ⟨.typeError,
      "unsupported operand type(s) for +: \x27float\x27 and \x27" ++
        typeName seconds ++ "\x27"⟩

/-- `handle_condition`: `left`/`value1`, `operator` (default `"=="`),
`right`/`value2`; output port 0 on true, 1 on false. -/
def handle_condition (params : List (String × PyVal)) (_input_data : PyVal) :
    Except Exc (PyVal × Nat) := do
  let left :=
    match dictGet params "left" with
    | some v => v
    | Option.none => (dictGet params "value1").getD .none
  let operator := paramsGet params "operator" (.str "==")
  let right :=
    match dictGet params "right" with
    | some v => v
    | Option.none => (dictGet params "value2").getD .none
  let b ← do_condition left operator right
  .ok (.dict [("condition_result", .bool b)], if b then 0 else 1)

/-- The scan of `handle_switch`'s `for i, case in enumerate(cases)`. -/
def switchGo (value : String) : List PyVal → Nat → (PyVal × Nat)
  | [], n => (.dict [("matched_case", .str "default")], n)
  | c :: rest, n =>
    if pyStr c == value then (.dict [("matched_case", c)], n)
    else switchGo value rest (n + 1)

/-- `handle_switch`: route to the first case whose string form equals
`str(params["value"])`; default port is `len(cases)`. -/
def handle_switch (params : List (String × PyVal)) (_input_data : PyVal) :
    Except Exc (PyVal × Nat) := do
  let v ← paramsItem params "value"
  let value := pyStr v
  let casesV := paramsGet params "cases" (.list [])
  let cases ←
    match casesV with
    | .list l => pure l
    | .str s => pure (s.toList.map (fun c => PyVal.str (String.mk [c])))
    | .dict d => pure (d.map (fun p => PyVal.str p.1))
    | w => Except.error (⟨.typeError, "\x27" ++ typeName w ++ "\x27 object is not iterable"⟩ : Exc)
  .ok (switchGo value cases 0)

/-- `handle_merge`: pass through the (list-shaped) input. -/
def handle_merge (_params : List (String × PyVal)) (input_data : PyVal) :
    Except Exc (PyVal × Nat) :=
  .ok (input_data, 0)

/-- `handle_manual_trigger`: returns `{}`. -/
def handle_manual_trigger (_params : List (String × PyVal))
    (_input_data : PyVal) : Except Exc (PyVal × Nat) :=
  .ok (.dict [], 0)

/-- `handle_noop`: pass through. -/
def handle_noop (_params : List (String × PyVal)) (input_data : PyVal) :
    Except Exc (PyVal × Nat) :=
  .ok (input_data, 0)

/-- The registry keys, as a typed dispatch tag. -/
inductive HandlerKind where
  | hPrint | hSet | hCalculate | hHttp | hDelay | hCondition | hSwitch
  | hMerge | hManualTrigger | hNoop
deriving DecidableEq, Repr

/-- `SIMPLE_HANDLERS` from `node_handlers.py`. -/
def SIMPLE_HANDLERS : List (String × HandlerKind) :=
  [("print", .hPrint), ("set", .hSet), ("calculate", .hCalculate),
   ("http", .hHttp), ("delay", .hDelay), ("condition", .hCondition),
   ("if", .hCondition), ("switch", .hSwitch), ("merge", .hMerge),
   ("manual_trigger", .hManualTrigger)]

/-- `N8N_TYPE_MAPPING` from `node_handlers.py`. -/
def N8N_TYPE_MAPPING : List (String × HandlerKind) :=
  [("n8n-nodes-base.httpRequest", .hHttp), ("n8n-nodes-base.set", .hSet),
   ("n8n-nodes-base.if", .hCondition), ("n8n-nodes-base.switch", .hSwitch),
   ("n8n-nodes-base.merge", .hMerge),
   ("n8n-nodes-base.manualTrigger", .hManualTrigger),
   ("n8n-nodes-base.code", .hNoop), ("n8n-nodes-base.telegram", .hNoop),
   ("n8n-nodes-base.googleSheets", .hNoop), ("n8n-nodes-base.airtable", .hNoop)]

/-- `get_handler`: native table first, then the compatibility table, else
no-op (it never returns `None`, so the engine's unknown-type branch after it
is unreachable). -/
def get_handler (node_type : String) : HandlerKind :=
  match List.lookup node_type SIMPLE_HANDLERS with
  | some h => h
  | Option.none =>
    match List.lookup node_type N8N_TYPE_MAPPING with
    | some h => h
    | Option.none => .hNoop

/-- Dict membership on the registries requires a hashable key: a resolved
node type that is a list or dict raises `TypeError`; other non-strings are
simply not found and dispatch to no-op. -/
def get_handler_of (node_type : PyVal) : Except Exc HandlerKind :=
  match node_type with
  | .list _ => .error ⟨.typeError, "unhashable type: \x27list\x27"⟩
  | .dict _ => .error ⟨.typeError, "unhashable type: \x27dict\x27"⟩
  | .str s => .ok (get_handler s)
  | _ => .ok .hNoop

/-- Dispatch a handler call `handler(clean_params, input_data, self)`. -/
def callHandler (net : Nat → NetResult) (h : HandlerKind)
    (params : List (String × PyVal)) (input_data : PyVal) :
    Except Exc (PyVal × Nat) :=
  match h with
  | .hPrint => handle_print params input_data
  | .hSet => handle_set params input_data
  | .hCalculate => handle_calculate params input_data
  | .hHttp => handle_http net params input_data
  | .hDelay => handle_delay params input_data
  | .hCondition => handle_condition params input_data
  | .hSwitch => handle_switch params input_data
  | .hMerge => handle_merge params input_data
  | .hManualTrigger => handle_manual_trigger params input_data
  | .hNoop => handle_noop params input_data

end NodeHandlers

/-- Generic association-list lookup (Python dict read). -/
def assocGet {β} (m : List (String × β)) (k : String) : Option β :=
  (m.find? (fun p => p.1 == k)).map (fun p => p.2)

/-- Generic association-list write (Python dict write: overwrite in place or
append). -/
def assocSet {β} (m : List (String × β)) (k : String) (v : β) :
    List (String × β) :=
  match m with
  | [] => [(k, v)]
  | (k1, v1) :: rest =>
    if k1 == k then (k, v) :: rest else (k1, v1) :: assocSet rest k v

namespace WorkflowEngine

open PyVal AppTasks NodeHandlers

/-- The bypass sentinel.  The source represents it as this magic string, so a
buffer slot is "a skip" exactly when it compares `==` to it. -/
def SKIP_SIGNAL : PyVal := .str "__SKIPPED_BRANCH__"

/-- `ConnectionTarget` from `schemas/nodes.py`. -/
structure ConnectionTarget where
  node : String
  type : String := "main"
  index : Int := 0

/-- The connections of one source node: output type → ordered output ports,
each a list of targets. -/
abbrev Conns := List (String × List (List ConnectionTarget))

/-- `Node` from `schemas/nodes.py`.  `typeVersion` and `position` are numeric
fields; variable resolution maps numbers to themselves, so they are omitted
from the model. -/
structure Node where
  id : String := ""
  name : String
  type : String
  parameters : List (String × PyVal) := []
  disabled : Bool := false
  credentials : Option (List (String × PyVal)) := Option.none
  notes : Option String := Option.none

/-- `WorkflowPayload` from `schemas/nodes.py` (ignored metadata omitted). -/
structure WorkflowPayload where
  name : String := "My Workflow"
  nodes : List Node
  connections : List (String × Conns) := []

/-- `nodes_by_names`: `{node.name: node for node in nodes}` — for duplicate
names the later node wins, hence the reversed search. -/
def nodesByName (wf : WorkflowPayload) (n : String) : Option Node :=
  wf.nodes.reverse.find? (fun nd => nd.name == n)

/-- The start-node search of `__init__`: the first node whose type contains
`manual_trigger`. -/
def findStartName (wf : WorkflowPayload) : Option String :=
  (wf.nodes.find? (fun nd => strContains nd.type "manual_trigger")).map
    (fun nd => nd.name)

/-- Target names of one output port, in order. -/
def portTargets (port : List ConnectionTarget) : List String :=
  port.map (fun t => t.node)

/-- Target names across a list of output ports, in order. -/
def portsTargets (ports : List (List ConnectionTarget)) : List String :=
  ports.foldr (fun p acc => portTargets p ++ acc) []

/-- Target names across all connection types of one source node, in order
(`for connection_type in connections.values(): ...`). -/
def connsTargets (cs : Conns) : List String :=
  cs.foldr (fun t acc => portsTargets t.2 ++ acc) []

/-- Every target name of the whole `connections` mapping, in iteration
order.  `in_degree` increments once per element of this list. -/
def allTargetNames (connections : List (String × Conns)) : List String :=
  connections.foldr (fun e acc => connsTargets e.2 ++ acc) []

/-- `self.in_degree[k] += 1`: `KeyError` when the target is not a node. -/
def bump (m : List (String × Nat)) (k : String) :
    Except Exc (List (String × Nat)) :=
  match assocGet m k with
  | some n => .ok (assocSet m k (n + 1))
  | Option.none => .error ⟨.keyError, "\x27" ++ k ++ "\x27"⟩

/-- `{node.name: 0 for node in self.workflow.nodes}`. -/
def initDeg (wf : WorkflowPayload) : List (String × Nat) :=
  wf.nodes.foldl (fun m nd => assocSet m nd.name 0) []

/-- The in-degree computation loop of `__init__` (before the start-node
override): one increment per connection target, across all source nodes,
connection types and output ports. -/
def computeInDegree (wf : WorkflowPayload) :
    Except Exc (List (String × Nat)) :=
  (allTargetNames wf.connections).foldlM bump (initDeg wf)

/-- The in-degree map as `__init__` leaves it: the computed map with the
start entry *assigned* (not incremented) to 1. -/
def inDegreeInit (wf : WorkflowPayload) (start : String) :
    Except Exc (List (String × Nat)) :=
  (fun m => assocSet m start 1) <$> computeInDegree wf

/-- The `"main"` output ports of a node (`[]` when the node has no
connections entry or no `"main"` key). -/
def mainPorts (wf : WorkflowPayload) (n : String) :
    List (List ConnectionTarget) :=
  match assocGet wf.connections n with
  | Option.none => []
  | some cs => (assocGet cs "main").getD []

/-- `get_next_nodes`: targets of the selected output port (or `[]` when the
index is past the last port). -/
def get_next_nodes (wf : WorkflowPayload) (n : String) (output_index : Nat) :
    List String :=
  portTargets ((mainPorts wf n).getD output_index [])

/-- The enumeration loop of `get_skipped_nodes`. -/
def skippedGo (active : Nat) : List (List ConnectionTarget) → Nat → List String
  | [], _ => []
  | port :: rest, i =>
    if i ≠ active then portTargets port ++ skippedGo active rest (i + 1)
    else skippedGo active rest (i + 1)

/-- `get_skipped_nodes`: targets of every output port other than the active
one, ports in ascending order. -/
def get_skipped_nodes (wf : WorkflowPayload) (n : String)
    (active_output_index : Nat) : List String :=
  skippedGo active_output_index (mainPorts wf n) 0

/-- `get_all_children`: targets of every `"main"` output port, in order. -/
def get_all_children (wf : WorkflowPayload) (n : String) : List String :=
  portsTargets (mainPorts wf n)

/-- `node.model_dump()` restricted to the fields the engine touches (see
`Node`); variable resolution then walks this entire dictionary. -/
def nodeDump (nd : Node) : PyVal :=
  .dict
    [("id", .str nd.id), ("name", .str nd.name), ("type", .str nd.type),
     ("parameters", .dict nd.parameters),
     ("credentials",
       match nd.credentials with
       | some c => .dict c
       | Option.none => .none),
     ("disabled", .bool nd.disabled),
     ("notes",
       match nd.notes with
       | some s => .str s
       | Option.none => .none)]

/-- `execute_node` from `app/workflow_engine.py`: a disabled node bypasses
resolution and dispatch entirely and returns `(input_data, 0)`; otherwise
resolve the dumped node against the execution state, extract the cleaned
parameters and type, dispatch and run the handler.  (`get_handler` never
returns `None`, so the source's unknown-type `raise` after it is dead code.)
-/
def execute_node (net : Nat → NetResult) (state : List (String × PyVal))
    (nd : Node) (input_data : PyVal) : Except Exc (PyVal × Nat) :=
  if nd.disabled then .ok (input_data, 0)
  else do
    let clean ← AppTasks.resolve_all_variables state (nodeDump nd)
    -- resolving a dict always yields a dict with the same keys, so the
    -- non-dict fallbacks below are unreachable
    let clean_params :=
      match clean with
      | .dict d => (dictGet d "parameters").getD (.dict [])
      | _ => .dict []
    let params :=
      match clean_params with
      | .dict p => p
      | _ => []
    let node_type :=
      match clean with
      | .dict d => (dictGet d "type").getD .none
      | _ => .none
    let h ← get_handler_of node_type
    callHandler net h params input_data

/-- The scheduler's per-run mutable state: `execution_state`, the input
buffers, and `log` — the order in which `execution_state[...] = ...`
assignments happened during the loop (an observer used to state the
write-at-most-once property; Python has no separate object for it). -/
structure EngineState where
  exec : List (String × PyVal)
  buf : List (String × List PyVal)
  log : List String

/-- Read a node's input buffer. -/
def bufGet (st : EngineState) (n : String) : List PyVal :=
  (assocGet st.buf n).getD []

/-- The exception classes of the scheduler's
`except (ValueError, KeyError, TypeError, httpx.HTTPError)` clause. -/
def caughtClass : ExcClass → Bool
  | .valueError | .keyError | .typeError | .httpxHTTPError => true
  | _ => false

/-- Append one value to one child's buffer, then enqueue the child if its
buffer length now equals its in-degree (steps 4/5/skip/error of the loop). -/
def appendOne (inDeg : List (String × Nat)) (stq : EngineState × List String)
    (cv : String × PyVal) : EngineState × List String :=
  let (st, q) := stq
  let (c, v) := cv
  let newBuf := bufGet st c ++ [v]
  let st2 : EngineState := { st with buf := assocSet st.buf c newBuf }
  if newBuf.length = ((assocGet inDeg c).getD 0) then (st2, q ++ [c])
  else (st2, q)

/-- Deliver a list of `(child, value)` messages in order. -/
def propagate (inDeg : List (String × Nat)) :
    List (String × PyVal) → EngineState × List String → EngineState × List String
  | [], stq => stq
  | cv :: rest, stq => propagate inDeg rest (appendOne inDeg stq cv)

/-- `{"error": str(e)}`. -/
def errEntry (msg : String) : PyVal := .dict [("error", .str msg)]

/-- `{"status": "skipped"}`. -/
def skipEntry : PyVal := .dict [("status", .str "skipped")]

/-- Input shaping (step 2 of the dispatch loop): drop the skip signals; a
merge node receives the whole list of remaining inputs, any other node the
first one (or `{}` when none remain). -/
def shapedInput (st : EngineState) (n : String) (nd : Node) : PyVal :=
  let valid_inputs := (bufGet st n).filter (fun i => !pyEq i SKIP_SIGNAL)
  if strContains nd.type "merge" then PyVal.list valid_inputs
  else valid_inputs.headD (.dict [])

/-- One iteration of the dispatch loop for dequeued node `n` (the queue
stores node names; the buffered inputs are read at dequeue time, which is
exactly what Python's aliasing of the mutable buffer list in the queued
tuple amounts to).  Skip detection, input shaping, execution, state write
and propagation; a raised exception of a caught class becomes an error
entry plus skip propagation, any other class propagates out. -/
def processNode (net : Nat → NetResult) (wf : WorkflowPayload)
    (inDeg : List (String × Nat)) (n : String) (st : EngineState)
    (q : List String) : Except Exc (EngineState × List String) :=
  match nodesByName wf n with
  | Option.none => .error ⟨.keyError, "\x27" ++ n ++ "\x27"⟩
  | some nd =>
    let buffered_inputs := bufGet st n
    if buffered_inputs.all (fun i => pyEq i SKIP_SIGNAL) then
      let st2 : EngineState :=
        { st with exec := dictSet st.exec n skipEntry, log := st.log ++ [n] }
      .ok (propagate inDeg
        ((get_all_children wf n).map (fun c => (c, SKIP_SIGNAL))) (st2, q))
    else
      match execute_node net st.exec nd (shapedInput st n nd) with
      | .ok (result, output_index) =>
        let st2 : EngineState :=
          { st with exec := dictSet st.exec n result, log := st.log ++ [n] }
        .ok (propagate inDeg
          ((get_next_nodes wf n output_index).map (fun c => (c, result)) ++
            (get_skipped_nodes wf n output_index).map (fun c => (c, SKIP_SIGNAL)))
          (st2, q))
      | .error e =>
        if caughtClass e.cls then
          let st2 : EngineState :=
            { st with
              exec := dictSet st.exec n (errEntry e.msg)
              log := st.log ++ [n] }
          .ok (propagate inDeg
            ((get_all_children wf n).map (fun c => (c, SKIP_SIGNAL))) (st2, q))
        else .error e

/-- The `while self.queue:` loop, fuelled.  `.ok none` means the fuel ran
out (never happens with `nodes.length + 1` fuel — proved below); an
uncaught exception aborts the whole loop as in Python. -/
def runLoop (net : Nat → NetResult) (wf : WorkflowPayload)
    (inDeg : List (String × Nat)) :
    Nat → EngineState → List String → Except Exc (Option EngineState)
  | 0, _, _ => .ok Option.none
  | fuel + 1, st, q =>
    match q with
    | [] => .ok (some st)
    | n :: rest => do
      let (st2, q2) ← processNode net wf inDeg n st rest
      runLoop net wf inDeg fuel st2 q2

/-- The never-executed error entry written by the post-run sweep. -/
def cycleErr : PyVal :=
  .dict [("error", .str "Node never executed (possible cycle or missing input)")]

/-- The post-run reconciliation: every node without an execution-state entry
receives the cycle error.  (Python iterates a set difference; the iteration
order is unobservable since all written keys are distinct and absent, so the
sweep is modelled in node order.) -/
def sweep (wf : WorkflowPayload) (ex : List (String × PyVal)) :
    List (String × PyVal) :=
  wf.nodes.foldl
    (fun acc nd =>
      if (dictGet acc nd.name).isSome then acc
      else dictSet acc nd.name cycleErr)
    ex

/-- Engine construction (`__init__`) followed by `run()`: find the start
node, build `in_degree` and the buffers, seed the start node's buffer with
`{}`, enqueue it, drive the loop, then sweep.  The fuel `nodes.length + 1`
is sufficient (proved below). -/
def run (net : Nat → NetResult) (wf : WorkflowPayload) :
    Except Exc (Option EngineState) := do
  match findStartName wf with
  | Option.none =>
    .error ⟨.valueError, "Invalid Workflow: No \x27manual_trigger\x27 node found."⟩
  | some start => do
    let inDeg ← inDegreeInit wf start
    let buf0 := wf.nodes.foldl
      (fun m nd => assocSet m nd.name ([] : List PyVal)) []
    let st0 : EngineState := { exec := [], buf := buf0, log := [] }
    let st1 : EngineState :=
      { st0 with buf := assocSet st0.buf start (bufGet st0 start ++ [.dict []]) }
    match ← runLoop net wf inDeg (wf.nodes.length + 1) st1 [start] with
    | Option.none => .ok Option.none
    | some st2 => .ok (some { st2 with exec := sweep wf st2.exec })

end WorkflowEngine

namespace WorkflowEngine

open AppTasks

/-- The node names of a workflow, in order. -/
def names (wf : WorkflowPayload) : List String := wf.nodes.map Node.name

/-- Read an in-degree entry (0 outside the domain, which never happens for
well-formed payloads). -/
def inDegOf (m : List (String × Nat)) (c : String) : Nat :=
  (assocGet m c).getD 0

/-- The virtual trigger input: 1 for the start node, 0 elsewhere. -/
def startInit (start c : String) : Nat := if c = start then 1 else 0

/-- How many buffered values the already-executed nodes `L` have sent to `c`
(each executed node sends exactly one value per `"main"` edge occurrence,
whether data or skip). -/
def sumLog (wf : WorkflowPayload) (L : List String) (c : String) : Nat :=
  (L.map (fun n => (get_all_children wf n).count c)).sum

/-- The targets reachable through a node's `connections` entry (all types,
all ports); `get_all_children` selects the `"main"` subset of this. -/
def conSel (connections : List (String × Conns)) (n : String) : List String :=
  match assocGet connections n with
  | some cs => connsTargets cs
  | Option.none => []

/-- One step of the post-run sweep fold (on the node's name). -/
def sweepStep (acc : List (String × PyVal)) (nm : String) :
    List (String × PyVal) :=
  if (dictGet acc nm).isSome then acc else dictSet acc nm cycleErr

/-- What an `execution_state` entry written *during* the loop can be: the
skip marker, an error entry, or the pair returned by `execute_node` for the
node (at whatever state and shaped input it ran with). -/
def NodeVal (net : Nat → NetResult) (wf : WorkflowPayload) (c : String)
    (ov : Option PyVal) : Prop :=
  ∃ v, ov = some v ∧
    (v = skipEntry ∨ (∃ m, v = errEntry m) ∨
      ∃ nd ex input idx, nodesByName wf c = some nd ∧
        execute_node net ex nd input = .ok (v, idx))

/-- The scheduler-loop invariant.  `log` is the write order so far, `q` the
pending queue. -/
structure Inv (net : Nat → NetResult) (wf : WorkflowPayload)
    (inDeg : List (String × Nat))
    (start : String) (st : EngineState) (q : List String) : Prop where
  nodupLogQ : (st.log ++ q).Nodup
  logNames : ∀ n ∈ st.log, n ∈ names wf
  qNames : ∀ n ∈ q, n ∈ names wf
  execKeys : st.exec.map Prod.fst = st.log
  bufCount : ∀ c, (bufGet st c).length = startInit start c + sumLog wf st.log c
  qFull : ∀ c ∈ q, (bufGet st c).length = inDegOf inDeg c
  logFull : ∀ c ∈ st.log, inDegOf inDeg c ≤ (bufGet st c).length
  startOnce : start ∈ q → q = [start] ∧ st.log = []
  prov : ∀ c ∈ st.log, NodeVal net wf c (dictGet st.exec c)

/-- Mid-propagation invariant while node `n` delivers the remaining
`(child, value)` messages `rem`. -/
structure MidInv (net : Nat → NetResult) (wf : WorkflowPayload)
    (inDeg : List (String × Nat))
    (start : String) (n : String) (st : EngineState) (q : List String)
    (rem : List (String × PyVal)) : Prop where
  nodupLogQ : (st.log ++ q).Nodup
  logNames : ∀ c ∈ st.log, c ∈ names wf
  qNames : ∀ c ∈ q, c ∈ names wf
  execKeys : st.exec.map Prod.fst = st.log
  lastLog : n ∈ st.log
  bufCount : ∀ c,
    (bufGet st c).length + (rem.map Prod.fst).count c =
      startInit start c + sumLog wf st.log c
  qFull : ∀ c ∈ q, (bufGet st c).length = inDegOf inDeg c
  logFull : ∀ c ∈ st.log, inDegOf inDeg c ≤ (bufGet st c).length
  noStart : start ∉ q
  remBound : ∀ c,
    (rem.map Prod.fst).count c ≤ (get_all_children wf n).count c
  remNames : ∀ c ∈ rem.map Prod.fst, c ∈ names wf
  prov : ∀ c ∈ st.log, NodeVal net wf c (dictGet st.exec c)

end WorkflowEngine

/-! ### Verification fixtures (concrete payloads and oracles used by the
counterexamples and witnesses) -/

namespace Fixtures

open WorkflowEngine AppTasks

/-- A network oracle that is never consulted successfully. -/
def net0 : Nat → NetResult := fun _ => .transport "unreachable"

/-- C1: a workflow whose start node has a real incoming edge. -/
def wfC1 : WorkflowPayload :=
  { nodes := [
      { name := "trigger", type := "manual_trigger" },
      { name := "A", type := "print" }],
    connections := [("A", [("main", [[{ node := "trigger" }]])])] }

/-- C2: an http node whose `method` parameter is the integer 5 —
`method.upper()` raises `AttributeError`, which the scheduler's `except`
clause does not cover. -/
def wfC2 : WorkflowPayload :=
  { nodes := [
      { name := "trigger", type := "manual_trigger" },
      { name := "req", type := "http",
        parameters := [("url", .str "http://x"), ("method", .int 5)] }],
    connections := [("trigger", [("main", [[{ node := "req" }]])])] }

/-- A calculate node with an unknown operation: `do_calc` raises
`ValueError`, a caught class. -/
def badCalcNode : Node :=
  { name := "bad", type := "calculate",
    parameters := [("operation", .str "noSuchOp"), ("numbers", .list [.int 1])] }

/-- C2 witness: the two-node workflow trigger → bad. -/
def wfErr : WorkflowPayload :=
  { nodes := [{ name := "trigger", type := "manual_trigger" }, badCalcNode],
    connections := [("trigger", [("main", [[{ node := "bad" }]])])] }

/-- C2 witness: the engine state just after the trigger executed and
delivered `{}` to `bad`, with `bad` dequeued. -/
def stErr : EngineState :=
  { exec := [("trigger", .dict [])],
    buf := [("trigger", [.dict []]), ("bad", [.dict [], .dict []])],
    log := ["trigger"] }

/-- C3 witness: a linear workflow plus an unreachable island node. -/
def wfW : WorkflowPayload :=
  { nodes := [
      { name := "trigger", type := "manual_trigger" },
      { name := "show", type := "print", parameters := [("content", .str "hi")] },
      { name := "island", type := "print" }],
    connections := [("trigger", [("main", [[{ node := "show" }]])])] }

/-- C8 witness oracle: a timeout, then a transport error, then a JSON
response — both failure kinds trigger a retry. -/
def netMix : Nat → NetResult := fun i =>
  match i with
  | 0 => .timeout "t0"
  | 1 => .transport "t1"
  | _ => .resp
      { status_code := 200
        headers := [("content-type", "application/json")]
        jsonVal := .int 7
        text := "7" }

/-- C10 witness: a disabled node whose parameters cannot be resolved. -/
def disabledNode : Node :=
  { name := "off", type := "print",
    parameters := [("content", .str "$missing.path")], disabled := true }

end Fixtures

/-! # Claim theorems -/

/-! ## C7 — numeric coercion in `condition` -/

/-- C7 counterexample.  The claim says that when not both sides parse as
numbers, `condition` "falls back to ordinary comparison of the raw
(uncoerced) values".  At `("2", "<", "abc")` only the left side parses: the
code compares the coerced `2.0` against the raw `"abc"` and raises
`TypeError`, while the raw comparison `"2" < "abc"` is `True`. -/
theorem c7_condition_counterexample :
    AppTasks.do_condition (.str "2") (.str "<") (.str "abc") =
      .error ⟨.typeError,
        "\x27<\x27 not supported between instances of \x27float\x27 and \x27str\x27"⟩ ∧
    PyVal.pyOrder "<" (.str "2") (.str "abc") = .ok true :=
  ⟨rfl, rfl⟩

/-- C7 (amended): `do_condition` coerces each side *independently* with
`try_numeric`; with both sides numeric the comparison is numeric (so
`condition("3","==","3.0")` is true); with neither side numeric the raw
strings are compared; with exactly one numeric side the comparison runs on
the coerced value against the raw other side, so an ordering between a
number and a non-numeric string raises `TypeError` instead of comparing the
raw values. -/
theorem c7_condition_amended :
    (∀ s t ql qr, PyFloat.floatOfString? s = some ql →
      PyFloat.floatOfString? t = some qr →
      AppTasks.do_condition (.str s) (.str "==") (.str t) = .ok (ql == qr) ∧
      AppTasks.do_condition (.str s) (.str "<") (.str t) = .ok (decide (ql < qr))) ∧
    AppTasks.do_condition (.str "3") (.str "==") (.str "3.0") = .ok true ∧
    (∀ s t, PyFloat.floatOfString? s = Option.none →
      PyFloat.floatOfString? t = Option.none →
      AppTasks.do_condition (.str s) (.str "==") (.str t) = .ok (s == t) ∧
      AppTasks.do_condition (.str s) (.str "<") (.str t) =
        .ok (PyVal.strLtL s.toList t.toList)) ∧
    (∀ s t q, PyFloat.floatOfString? s = some q →
      PyFloat.floatOfString? t = Option.none →
      AppTasks.do_condition (.str s) (.str "<") (.str t) =
        .error ⟨.typeError,
          "\x27<\x27 not supported between instances of \x27float\x27 and \x27str\x27"⟩) := by
  refine ⟨?_, rfl, ?_, ?_⟩
  · intro s t ql qr hl hr
    constructor <;> simp [AppTasks.do_condition, PyVal.try_numeric, hl, hr] <;> rfl
  · intro s t hl hr
    constructor <;> simp [AppTasks.do_condition, PyVal.try_numeric, hl, hr] <;> rfl
  · intro s t q hl hr
    simp [AppTasks.do_condition, PyVal.try_numeric, hl, hr]
    rfl

/-- C7 witness: the amended theorem applied at concrete inputs. -/
theorem c7_condition_amended_witness :
    AppTasks.do_condition (.str "2") (.str "<") (.str "10") = .ok true ∧
    AppTasks.do_condition (.str "a") (.str "==") (.str "b") = .ok false ∧
    AppTasks.do_condition (.str "2") (.str "<") (.str "x") =
      .error ⟨.typeError,
        "\x27<\x27 not supported between instances of \x27float\x27 and \x27str\x27"⟩ := by
  refine ⟨?_, ?_, c7_condition_amended.2.2.2 "2" "x" 2 rfl rfl⟩
  · have h := (c7_condition_amended.1 "2" "10" 2 10 rfl rfl).2
    rw [h]; rfl
  · have h := (c7_condition_amended.2.2.1 "a" "b" rfl rfl).1
    rw [h]; rfl

/-! ## C9 — the print handler -/

/-- C9 counterexample.  The claim says `handle_print` returns
`params.content` whenever the parameter is present, "regardless of the
parameter's value".  With `content = ""` (present but falsy) the handler
returns `input_data` instead, because `if content:` tests truthiness. -/
theorem c9_print_counterexample :
    NodeHandlers.handle_print [("content", .str "")] (.str "X") =
      .ok (.str "X", 0) ∧
    (Except.ok ((.str "X" : PyVal), 0) : Except Exc (PyVal × Nat)) ≠
      .ok (.str "", 0) := by
  refine ⟨rfl, ?_⟩
  intro h
  simp [Prod.ext_iff] at h

/-- C9 (amended): `handle_print` selects `params["content"]` when that key
is present, otherwise `params["text"]`; it returns the selected value only
when it is *truthy*, falling back to `input_data` when the selected value is
falsy or both keys are absent.  The output index is always 0. -/
theorem c9_print_amended (params : List (String × PyVal)) (input : PyVal) :
    (∀ v, dictGet params "content" = some v → PyVal.pyTruthy v = true →
      NodeHandlers.handle_print params input = .ok (v, 0)) ∧
    (∀ v, dictGet params "content" = some v → PyVal.pyTruthy v = false →
      NodeHandlers.handle_print params input = .ok (input, 0)) ∧
    (∀ v, dictGet params "content" = Option.none →
      dictGet params "text" = some v → PyVal.pyTruthy v = true →
      NodeHandlers.handle_print params input = .ok (v, 0)) ∧
    (∀ v, dictGet params "content" = Option.none →
      dictGet params "text" = some v → PyVal.pyTruthy v = false →
      NodeHandlers.handle_print params input = .ok (input, 0)) ∧
    (dictGet params "content" = Option.none →
      dictGet params "text" = Option.none →
      NodeHandlers.handle_print params input = .ok (input, 0)) ∧
    (∀ r, NodeHandlers.handle_print params input = .ok r → r.2 = 0) := by
  refine ⟨?_, ?_, ?_, ?_, ?_, ?_⟩
  · intro v hc ht
    simp [NodeHandlers.handle_print, hc, ht, AppTasks.do_print]
  · intro v hc ht
    simp [NodeHandlers.handle_print, hc, ht]
  · intro v hc htx ht
    simp [NodeHandlers.handle_print, hc, htx, ht, AppTasks.do_print]
  · intro v hc htx ht
    simp [NodeHandlers.handle_print, hc, htx, ht]
  · intro hc htx
    simp [NodeHandlers.handle_print, hc, htx, PyVal.pyTruthy]
  · intro r hr
    unfold NodeHandlers.handle_print at hr
    split at hr <;> dsimp only at hr <;> split at hr <;>
      (injection hr with hr2; subst hr2; rfl)

/-- C9 witness: the amended theorem applied at concrete inputs. -/
theorem c9_print_amended_witness :
    NodeHandlers.handle_print [("content", .str "hi")] (.str "in") =
      .ok (.str "hi", 0) ∧
    NodeHandlers.handle_print [("text", .str "t")] (.str "in") =
      .ok (.str "t", 0) ∧
    NodeHandlers.handle_print [] (.str "in") = .ok (.str "in", 0) :=
  ⟨(c9_print_amended _ _).1 _ rfl rfl,
   (c9_print_amended _ _).2.2.1 _ rfl rfl rfl,
   (c9_print_amended _ _).2.2.2.2.1 rfl rfl⟩

/-! ## C10 — disabled nodes bypass resolution and dispatch -/

/-- C10: a disabled node returns `(input_data, 0)` before variable
resolution or handler dispatch happen — for *every* execution state and
parameter tree, including ones where resolution would raise — so a disabled
node never produces an `{error: ...}` entry from its own execution. -/
theorem c10_disabled_bypass (net : Nat → AppTasks.NetResult)
    (state : List (String × PyVal)) (nd : WorkflowEngine.Node) (input : PyVal)
    (h : nd.disabled = true) :
    WorkflowEngine.execute_node net state nd input = .ok (input, 0) := by
  unfold WorkflowEngine.execute_node
  rw [h]
  simp

/-- C10 witness: the theorem applied to a disabled node whose parameters
contain a `$`-path that does not resolve against the empty state (shown by
the second conjunct). -/
theorem c10_disabled_bypass_witness :
    WorkflowEngine.execute_node Fixtures.net0 [] Fixtures.disabledNode
      (.str "in") = .ok (.str "in", 0) ∧
    AppTasks.resolve_all_variables []
      (.dict Fixtures.disabledNode.parameters) =
      .error ⟨.valueError, "Variable \x27missing\x27 not found. Available: []"⟩ :=
  ⟨c10_disabled_bypass Fixtures.net0 [] Fixtures.disabledNode (.str "in") rfl,
   rfl⟩

/-! ## C8 — HTTP retry policy -/

theorem startsList_append (x y : List Char) : startsList (x ++ y) x = true := by
  induction x with
  | nil => cases y <;> rfl
  | cons c cs ih => simp [startsList, ih]

theorem hasSub_append (pre mid post : List Char) :
    hasSub (pre ++ (mid ++ post)) mid = true := by
  induction pre with
  | nil =>
    unfold hasSub
    simp [startsList_append]
  | cons c cs ih =>
    unfold hasSub
    simp only [List.cons_append]
    rw [Bool.or_eq_true]
    exact Or.inr ih

/-- Substring containment in a three-part concatenation (for checking that
an error message names the URL and the attempt count). -/
theorem strContains_middle (a b c : String) :
    strContains (a ++ b ++ c) b = true := by
  unfold strContains
  have h : (a ++ b ++ c).toList = a.toList ++ (b.toList ++ c.toList) := by
    simp [String.toList, String.data_append]
  rw [h]
  exact hasSub_append _ _ _

/-- The retry trace of the attempt loop: at most `remaining + 1` attempts,
at least one, and exactly one `retry_delay` sleep between consecutive
attempts. -/
theorem httpAttempts_trace (net : Nat → AppTasks.NetResult)
    (url method : PyVal) (totalI : Int) :
    ∀ remaining i,
      (AppTasks.httpAttempts net url method totalI i remaining).attempts ≤
        remaining + 1 ∧
      1 ≤ (AppTasks.httpAttempts net url method totalI i remaining).attempts ∧
      (AppTasks.httpAttempts net url method totalI i remaining).waits + 1 =
        (AppTasks.httpAttempts net url method totalI i remaining).attempts := by
  intro remaining
  induction remaining with
  | zero =>
    intro i
    unfold AppTasks.httpAttempts
    split <;> simp
    split <;> simp
  | succ r ih =>
    intro i
    unfold AppTasks.httpAttempts
    split
    · simp
    · have h := ih (i + 1)
      simp only
      omega

/-- All attempts time out: the loop makes every attempt, then raises a fresh
`ValueError` naming the URL and `retries + 1`. -/
theorem httpAttempts_all_timeout (net : Nat → AppTasks.NetResult)
    (url method : PyVal) (totalI : Int) (m : Nat → String)
    (hmethod : AppTasks.methodCheck method = .ok ())
    (hnet : ∀ i, net i = .timeout (m i)) :
    ∀ remaining i,
      AppTasks.httpAttempts net url method totalI i remaining =
        { result := .error ⟨.valueError,
            "Request to " ++ PyVal.pyStr url ++ " timed out after " ++
              toString totalI ++ " attempts"⟩
          attempts := remaining + 1
          waits := remaining } := by
  intro remaining
  induction remaining with
  | zero =>
    intro i
    unfold AppTasks.httpAttempts AppTasks.oneAttempt
    rw [hmethod, hnet i]
    try rfl
  | succ r ih =>
    intro i
    unfold AppTasks.httpAttempts AppTasks.oneAttempt
    rw [hmethod, hnet i]
    simp only [ih (i + 1)]

/-- All attempts fail at transport level: the loop makes every attempt, then
re-raises the *last* exception unchanged (message `m` of the final attempt
index — it does not mention the URL or the attempt count). -/
theorem httpAttempts_all_transport (net : Nat → AppTasks.NetResult)
    (url method : PyVal) (totalI : Int) (m : Nat → String)
    (hmethod : AppTasks.methodCheck method = .ok ())
    (hnet : ∀ i, net i = .transport (m i)) :
    ∀ remaining i,
      AppTasks.httpAttempts net url method totalI i remaining =
        { result := .error ⟨.httpxHTTPError, m (i + remaining)⟩
          attempts := remaining + 1
          waits := remaining } := by
  intro remaining
  induction remaining with
  | zero =>
    intro i
    unfold AppTasks.httpAttempts AppTasks.oneAttempt
    rw [hmethod, hnet i]
    try rfl
  | succ r ih =>
    intro i
    unfold AppTasks.httpAttempts AppTasks.oneAttempt
    rw [hmethod, hnet i]
    simp only [ih (i + 1)]
    have : i + 1 + r = i + (r + 1) := by omega
    rw [this]

/-- C8 counterexample.  The claim says that on final failure *of either
kind* the surfaced exception names the URL and the total attempt count.
With every attempt failing at transport level (`"boom"`), `do_http`
re-raises the last exception unchanged: its message contains neither the
URL nor the attempt count. -/
theorem c8_http_counterexample :
    AppTasks.do_http (fun _ => .transport "boom") (.str "http://x")
      (.str "GET") .none .none (.int 1) (.int 1) =
      { result := .error ⟨.httpxHTTPError, "boom"⟩, attempts := 2, waits := 1 } ∧
    strContains "boom" "http://x" = false ∧
    strContains "boom" "2" = false :=
  ⟨rfl, rfl, rfl⟩

/-- C8 (amended): `do_http` makes at most `retries + 1` attempts with one
`retry_delay` sleep between consecutive attempts, and both timeouts and
transport errors trigger a retry.  On final *timeout* it raises a
`ValueError` whose message names the URL and the total attempt count; on
final *transport* failure it re-raises the last exception unchanged (whose
message need not mention either). -/
theorem c8_http_retry_amended :
    (∀ (net : Nat → AppTasks.NetResult) url method body headers rd (r : Int),
      (AppTasks.do_http net url method body headers (.int r) rd).attempts ≤
        (r + 1).toNat ∧
      (AppTasks.do_http net url method body headers (.int r) rd).waits + 1 =
        max 1 (AppTasks.do_http net url method body headers (.int r) rd).attempts) ∧
    (∀ (net : Nat → AppTasks.NetResult) url body headers rd (r : Int)
        (m : Nat → String), 0 ≤ r → (∀ i, net i = .timeout (m i)) →
      (AppTasks.do_http net url (.str "GET") body headers (.int r) rd).result =
        .error ⟨.valueError,
          "Request to " ++ PyVal.pyStr url ++ " timed out after " ++
            toString (r + 1) ++ " attempts"⟩ ∧
      strContains
        ("Request to " ++ PyVal.pyStr url ++ " timed out after " ++
          toString (r + 1) ++ " attempts") (PyVal.pyStr url) = true ∧
      (AppTasks.do_http net url (.str "GET") body headers (.int r) rd).attempts =
        (r + 1).toNat) ∧
    (∀ (net : Nat → AppTasks.NetResult) url body headers rd (r : Int)
        (m : Nat → String), 0 ≤ r → (∀ i, net i = .transport (m i)) →
      (AppTasks.do_http net url (.str "GET") body headers (.int r) rd).result =
        .error ⟨.httpxHTTPError, m r.toNat⟩) ∧
    AppTasks.do_http Fixtures.netMix (.str "u") (.str "GET") .none .none
      (.int 2) (.int 1) = { result := .ok (.int 7), attempts := 3, waits := 2 } := by
  refine ⟨?_, ?_, ?_, rfl⟩
  · intro net url method body headers rd r
    unfold AppTasks.do_http
    simp only [AppTasks.rangeArg]
    split
    · simp
    · next htot =>
      have h := httpAttempts_trace net url method (r + 1) (r + 1 - 1).toNat 0
      have hr : ¬ r + 1 ≤ 0 := htot
      constructor
      · have : (r + 1 - 1).toNat + 1 = (r + 1).toNat := by omega
        omega
      · omega
  · intro net url body headers rd r m hr hnet
    unfold AppTasks.do_http
    simp only [AppTasks.rangeArg]
    split
    · omega
    · rw [httpAttempts_all_timeout net url (.str "GET") (r + 1) m rfl hnet]
      refine ⟨rfl, ?_, by dsimp only; omega⟩
      have h := strContains_middle ("Request to " ++ PyVal.pyStr url ++ " timed out after ")
        (PyVal.pyStr url) "" 
      -- rebracket the concatenation so the middle factor is the URL
      have heq :
          "Request to " ++ PyVal.pyStr url ++ " timed out after " ++
            toString (r + 1) ++ " attempts" =
          "Request to " ++ (PyVal.pyStr url ++
            (" timed out after " ++ toString (r + 1) ++ " attempts")) := by
        simp [String.append_assoc]
      rw [heq]
      unfold strContains
      have h2 : ("Request to " ++ (PyVal.pyStr url ++
          (" timed out after " ++ toString (r + 1) ++ " attempts"))).toList =
          "Request to ".toList ++ ((PyVal.pyStr url).toList ++
            (" timed out after " ++ toString (r + 1) ++ " attempts").toList) := by
        simp [String.toList, String.data_append]
      rw [h2]
      exact hasSub_append _ _ _
  · intro net url body headers rd r m hr hnet
    unfold AppTasks.do_http
    simp only [AppTasks.rangeArg]
    split
    · omega
    · rw [httpAttempts_all_transport net url (.str "GET") (r + 1) m rfl hnet]
      dsimp only
      have harg : 0 + (r + 1 - 1).toNat = r.toNat := by omega
      rw [harg]

/-- C8 witness: the amended theorem applied at concrete inputs (an oracle
that always times out, with one retry). -/
theorem c8_http_retry_amended_witness :
    (AppTasks.do_http (fun _ => .timeout "slow") (.str "http://y")
      (.str "GET") .none .none (.int 1) (.int 1)).result =
      .error ⟨.valueError, "Request to http://y timed out after 2 attempts"⟩ ∧
    (AppTasks.do_http (fun _ => .timeout "slow") (.str "http://y")
      (.str "GET") .none .none (.int 1) (.int 1)).attempts = 2 := by
  have h := (c8_http_retry_amended.2.1 (fun _ => .timeout "slow")
    (.str "http://y") .none .none (.int 1) 1 (fun _ => "slow") (by omega)
    (fun _ => rfl))
  exact ⟨h.1, h.2.2⟩

/-! ## C4 — whole-value resolution preserves types -/

/-- A string that fully matches the path pattern starts with `$`, hence
contains `$`. -/
theorem pathFullMatch_hasDollar {s : String}
    (h : AppTasks.pathFullMatch s = true) : strContains s "$" = true := by
  unfold AppTasks.pathFullMatch at h
  unfold strContains
  split at h
  · next rest heq =>
    rw [heq]
    unfold hasSub
    have hd : "$".toList = ['$'] := rfl
    rw [hd]
    simp [startsList]
  · exact absurd h (by simp)

/-- C4: for every execution state and every string parameter that matches
the path grammar end-to-end, `resolve_all_variables` returns exactly what
`get_value_from_path` produces — the resolved value itself, type intact,
with no conversion to string (and the resolver's exception if the path does
not resolve). -/
theorem c4_whole_value_mode (state : List (String × PyVal)) (s : String)
    (h : AppTasks.pathFullMatch s = true) :
    AppTasks.resolve_all_variables state (.str s) =
      AppTasks.get_value_from_path state s := by
  unfold AppTasks.resolve_all_variables
  rw [pathFullMatch_hasDollar h, h]
  simp

/-- C4 witness: the theorem applied at concrete inputs — a list element
stays an `int`, a whole list stays a list, a map stays a map, a boolean
stays a boolean. -/
theorem c4_whole_value_mode_witness :
    AppTasks.resolve_all_variables
      [("a", .list [.int 7]), ("m", .dict [("k", .bool true)])]
      (.str "$a[0]") = .ok (.int 7) ∧
    AppTasks.resolve_all_variables
      [("a", .list [.int 7]), ("m", .dict [("k", .bool true)])]
      (.str "$a") = .ok (.list [.int 7]) ∧
    AppTasks.resolve_all_variables
      [("a", .list [.int 7]), ("m", .dict [("k", .bool true)])]
      (.str "$m") = .ok (.dict [("k", .bool true)]) ∧
    AppTasks.resolve_all_variables
      [("a", .list [.int 7]), ("m", .dict [("k", .bool true)])]
      (.str "$m.k") = .ok (.bool true) :=
  ⟨(c4_whole_value_mode
      [("a", .list [.int 7]), ("m", .dict [("k", .bool true)])] "$a[0]" rfl).trans rfl,
   (c4_whole_value_mode
      [("a", .list [.int 7]), ("m", .dict [("k", .bool true)])] "$a" rfl).trans rfl,
   (c4_whole_value_mode
      [("a", .list [.int 7]), ("m", .dict [("k", .bool true)])] "$m" rfl).trans rfl,
   (c4_whole_value_mode
      [("a", .list [.int 7]), ("m", .dict [("k", .bool true)])] "$m.k" rfl).trans rfl⟩

/-! ## C5 — template mode preserves failing occurrences verbatim -/

theorem except_ok_bind {α β ε} (a : α) (f : α → Except ε β) :
    (Except.ok a >>= f) = f a := rfl

theorem except_error_bind {α β ε} (e : ε) (f : α → Except ε β) :
    (Except.error e >>= f : Except ε β) = Except.error e := rfl

/-- Every failure of one descent step of the path resolver is a
`ValueError`. -/
theorem gvStep_error_class (op : String) (cur : PyVal) (part : String) (e : Exc)
    (h : AppTasks.gvStep op cur part = .error e) : e.cls = .valueError := by
  unfold AppTasks.gvStep at h
  split at h
  · -- dict arm: lookup hit or a ValueError
    split at h
    · simp at h
    · injection h with h2; subst h2; rfl
  · -- list arm: digit index in range, out of range, or non-digit token
    split at h
    · dsimp only at h
      split at h
      · simp at h
      · injection h with h2; subst h2; rfl
    · injection h with h2; subst h2; rfl
  · injection h with h2; subst h2; rfl

/-- Every failure of the descent fold is a `ValueError`. -/
theorem gvFold_error_class (op : String) :
    ∀ (parts : List String) (v0 : PyVal) (e : Exc),
      List.foldlM (AppTasks.gvStep op) v0 parts = .error e →
      e.cls = .valueError := by
  intro parts
  induction parts with
  | nil =>
    intro v0 e h
    exact absurd h (by simp [List.foldlM, pure, Except.pure])
  | cons p rest ih =>
    intro v0 e h
    rw [List.foldlM_cons] at h
    cases hstep : AppTasks.gvStep op v0 p with
    | error e2 =>
      rw [hstep, except_error_bind] at h
      injection h with h2
      subst h2
      exact gvStep_error_class op v0 p _ hstep
    | ok v1 =>
      rw [hstep, except_ok_bind] at h
      exact ih v1 e h

/-- Every failure of `get_value_from_path` is a `ValueError` — exactly the
class the template branch catches. -/
theorem get_value_from_path_error_class (state : List (String × PyVal))
    (p : String) (e : Exc)
    (h : AppTasks.get_value_from_path state p = .error e) :
    e.cls = .valueError := by
  unfold AppTasks.get_value_from_path at h
  dsimp only at h
  split at h
  all_goals
    first
    | simp at h
    | (split at h
       · first
         | (injection h with h2; subst h2; rfl)
         | (subst h; rfl)
       · exact gvFold_error_class _ _ _ _ h)

/-- One matched occurrence never raises: a resolution failure is a
`ValueError`, caught and replaced by the original text. -/
theorem resolve_template_string_ok (state : List (String × PyVal))
    (tok : String) : ∃ out, AppTasks.resolve_template_string state tok = .ok out := by
  unfold AppTasks.resolve_template_string
  cases h : AppTasks.get_value_from_path state tok with
  | ok v => exact ⟨_, rfl⟩
  | error e =>
    have hcls := get_value_from_path_error_class state tok e h
    exact ⟨tok, by simp [hcls]⟩

/-- The template scan never raises, for any fuel. -/
theorem templateGoF_ok (state : List (String × PyVal)) :
    ∀ (fuel : Nat) (l : List Char),
      ∃ out, AppTasks.templateGoF state fuel l = .ok out := by
  intro fuel
  induction fuel with
  | zero => intro l; exact ⟨[], rfl⟩
  | succ f ih =>
    intro l
    unfold AppTasks.templateGoF
    match l with
    | [] => exact ⟨[], rfl⟩
    | c :: rest =>
      dsimp only
      by_cases hc : c == '$'
      · rw [if_pos hc]
        cases hr : AppTasks.parseRoot rest with
        | some r =>
          obtain ⟨piece, hp⟩ := resolve_template_string_ok state
            (String.mk ((c :: rest).take ((c :: rest).length - (AppTasks.extsMax r).length)))
          obtain ⟨tail, htl⟩ := ih (AppTasks.extsMax r)
          refine ⟨piece.toList ++ tail, ?_⟩
          simp only [hp, htl, Except.bind, bind]
        | none =>
          obtain ⟨out, ho⟩ := ih rest
          exact ⟨c :: out, by simp [ho]⟩
      · rw [if_neg hc]
        obtain ⟨out, ho⟩ := ih rest
        exact ⟨c :: out, by simp [ho]⟩

/-- C5: template mode.  (i) For every state and every `$`-containing string
that does not fully match the path grammar, resolution returns a *string*
and never raises — each occurrence whose resolution fails is kept verbatim
instead of the `ValueError` propagating.  (ii) The literal `"$100 USD"`
passes through unchanged against an empty state.  (iii) An occurrence that
does resolve is replaced by the string form of its value. -/
theorem c5_template_mode :
    (∀ (state : List (String × PyVal)) (s : String),
      strContains s "$" = true → AppTasks.pathFullMatch s = false →
      ∃ out, AppTasks.resolve_all_variables state (.str s) = .ok (.str out)) ∧
    AppTasks.resolve_all_variables [] (.str "$100 USD") = .ok (.str "$100 USD") ∧
    AppTasks.resolve_all_variables [("a", .int 3)] (.str "v=$a!") =
      .ok (.str "v=3!") := by
  refine ⟨?_, rfl, rfl⟩
  intro state s hdollar hfull
  unfold AppTasks.resolve_all_variables
  rw [hdollar, hfull]
  simp only [Bool.false_eq_true, if_false, if_true]
  obtain ⟨out, ho⟩ := templateGoF_ok state s.toList.length s.toList
  have ho2 : AppTasks.templateGoF state s.length s.data = Except.ok out := ho
  exact ⟨String.mk out, by simp [AppTasks.templateGo, ho2]⟩

/-- C5 witness: part (i) applied at a concrete failing-occurrence input. -/
theorem c5_template_mode_witness :
    ∃ out, AppTasks.resolve_all_variables [] (.str "$100 USD") =
      .ok (.str out) :=
  c5_template_mode.1 [] "$100 USD" rfl rfl

/-! ## C6 — `skip_keys` passes sub-values through unresolved -/

theorem except_pure_bind {α β ε} (a : α) (f : α → Except ε β) :
    ((pure a : Except ε α) >>= f) = f a := rfl

/-- Entry-wise description of the legacy dict resolution: keys are kept in
place; an entry whose key is in `skip_keys` keeps its value byte-for-byte;
any other entry's value is resolved recursively. -/
theorem legacy_resolveDict_forall2 (state : List (String × PyVal))
    (sk : List String) :
    ∀ (d l' : List (String × PyVal)),
      LegacyTasks.resolveDict state sk d = .ok l' →
      List.Forall₂ (fun (p q : String × PyVal) =>
        q.1 = p.1 ∧
        ((sk.contains p.1 = true ∧ q.2 = p.2) ∨
         (sk.contains p.1 = false ∧
           LegacyTasks.resolve_all_variables state sk p.2 = .ok q.2))) d l' := by
  intro d
  induction d with
  | nil =>
    intro l' h
    unfold LegacyTasks.resolveDict at h
    injection h with h2
    subst h2
    exact List.Forall₂.nil
  | cons kv rest ih =>
    intro l' h
    obtain ⟨k, v⟩ := kv
    unfold LegacyTasks.resolveDict at h
    by_cases hsk : sk.contains k
    · rw [if_pos hsk, except_pure_bind] at h
      dsimp only at h
      cases hrest : LegacyTasks.resolveDict state sk rest with
      | error e => rw [hrest, except_error_bind] at h; exact absurd h (by simp)
      | ok rest2 =>
        rw [hrest, except_ok_bind] at h
        injection h with h2
        subst h2
        exact List.Forall₂.cons ⟨rfl, Or.inl ⟨hsk, rfl⟩⟩ (ih rest2 hrest)
    · rw [if_neg hsk] at h
      cases hv : LegacyTasks.resolve_all_variables state sk v with
      | error e => rw [hv, except_error_bind] at h; exact absurd h (by simp)
      | ok v2 =>
        rw [hv, except_ok_bind] at h
        dsimp only at h
        cases hrest : LegacyTasks.resolveDict state sk rest with
        | error e => rw [hrest, except_error_bind] at h; exact absurd h (by simp)
        | ok rest2 =>
          rw [hrest, except_ok_bind] at h
          injection h with h2
          subst h2
          exact List.Forall₂.cons ⟨rfl, Or.inr ⟨by simpa using hsk, hv⟩⟩
            (ih rest2 hrest)

/-- C6: when the legacy `resolve_all_variables` resolves a mapping, every
key is preserved in place; the sub-value under a key in `skip_keys` is
passed through unresolved — identical before and after — while the sub-value
under any other key is resolved recursively. -/
theorem c6_skip_keys (state : List (String × PyVal)) (sk : List String)
    (d l' : List (String × PyVal))
    (h : LegacyTasks.resolve_all_variables state sk (.dict d) = .ok (.dict l')) :
    List.Forall₂ (fun (p q : String × PyVal) =>
      q.1 = p.1 ∧
      ((sk.contains p.1 = true ∧ q.2 = p.2) ∨
       (sk.contains p.1 = false ∧
         LegacyTasks.resolve_all_variables state sk p.2 = .ok q.2))) d l' := by
  unfold LegacyTasks.resolve_all_variables at h
  cases hd : LegacyTasks.resolveDict state sk d with
  | error e => rw [hd] at h; exact absurd h (by simp [Functor.map, Except.map])
  | ok l2 =>
    rw [hd] at h
    simp only [Functor.map, Except.map, Except.ok.injEq, PyVal.dict.injEq] at h
    subst h
    exact legacy_resolveDict_forall2 state sk d l2 hd

/-- C6 witness: the theorem applied at a concrete input — the `"keep"` entry
(in `skip_keys`) still holds the unresolved path text, the `"go"` entry was
resolved. -/
theorem c6_skip_keys_witness :
    List.Forall₂ (fun (p q : String × PyVal) =>
      q.1 = p.1 ∧
      ((["keep"].contains p.1 = true ∧ q.2 = p.2) ∨
       (["keep"].contains p.1 = false ∧
         LegacyTasks.resolve_all_variables [("a", .int 1)] ["keep"] p.2 = .ok q.2)))
      [("keep", .str "$missing"), ("go", .str "$a")]
      [("keep", .str "$missing"), ("go", .int 1)] :=
  c6_skip_keys [("a", .int 1)] ["keep"]
    [("keep", .str "$missing"), ("go", .str "$a")]
    [("keep", .str "$missing"), ("go", .int 1)] rfl

/-! ## C1 — the in-degree map at construction -/

theorem assocGet_cons {β} (k1 : String) (v1 : β) (rest : List (String × β))
    (k : String) :
    assocGet ((k1, v1) :: rest) k =
      if k1 = k then some v1 else assocGet rest k := by
  unfold assocGet
  by_cases h : k1 = k
  · subst h
    simp [List.find?]
  · simp [List.find?, beq_eq_false_iff_ne.mpr h, h]

theorem assocGet_set {β} (m : List (String × β)) (k : String) (v : β)
    (k2 : String) :
    assocGet (assocSet m k v) k2 = if k = k2 then some v else assocGet m k2 := by
  induction m with
  | nil =>
    unfold assocSet
    rw [assocGet_cons]
  | cons p rest ih =>
    obtain ⟨k1, v1⟩ := p
    unfold assocSet
    by_cases h : k1 = k
    · subst h
      simp only [beq_self_eq_true, if_true]
      rw [assocGet_cons, assocGet_cons]
      by_cases h2 : k1 = k2 <;> simp [h2]
    · simp only [beq_eq_false_iff_ne.mpr h, Bool.false_eq_true, if_false]
      rw [assocGet_cons, ih, assocGet_cons]
      by_cases h2 : k = k2
      · subst h2
        simp [h]
      · simp [h2]

/-- `initDeg` over an accumulator: every node name maps to 0, other keys
fall through. -/
theorem initDeg_fold_get (nodes : List WorkflowEngine.Node) :
    ∀ (acc : List (String × Nat)) (n : String),
      assocGet (nodes.foldl (fun m nd => assocSet m nd.name 0) acc) n =
        if n ∈ nodes.map WorkflowEngine.Node.name then some 0 else assocGet acc n := by
  induction nodes with
  | nil => intro acc n; simp
  | cons nd rest ih =>
    intro acc n
    rw [List.foldl_cons, ih]
    by_cases hrest : n ∈ rest.map WorkflowEngine.Node.name
    · simp [hrest]
    · rw [if_neg hrest, assocGet_set]
      by_cases hn : nd.name = n
      · subst hn
        simp
      · simp [hrest, Ne.symm hn, hn]

theorem initDeg_get (wf : WorkflowEngine.WorkflowPayload) (n : String) :
    assocGet (WorkflowEngine.initDeg wf) n =
      if n ∈ WorkflowEngine.names wf then some 0 else Option.none := by
  unfold WorkflowEngine.initDeg
  rw [initDeg_fold_get]
  rfl

/-- The increment fold of `computeInDegree`: given every target in the
domain, it succeeds and adds each target's occurrence count. -/
theorem bumpFold_spec :
    ∀ (ts : List String) (m : List (String × Nat)),
      (∀ t ∈ ts, (assocGet m t).isSome = true) →
      ∃ m2, List.foldlM WorkflowEngine.bump m ts = .ok m2 ∧
        ∀ n, assocGet m2 n = (assocGet m n).map (fun k => k + ts.count n) := by
  intro ts
  induction ts with
  | nil =>
    intro m _
    refine ⟨m, rfl, ?_⟩
    intro n
    cases assocGet m n <;> simp
  | cons t rest ih =>
    intro m hdom
    have ht : (assocGet m t).isSome = true := hdom t (by simp)
    obtain ⟨k, hk⟩ : ∃ k, assocGet m t = some k := by
      cases hmt : assocGet m t
      · rw [hmt] at ht; simp at ht
      · exact ⟨_, rfl⟩
    have hbump : WorkflowEngine.bump m t = .ok (assocSet m t (k + 1)) := by
      unfold WorkflowEngine.bump
      rw [hk]
    have hdom2 : ∀ x ∈ rest, (assocGet (assocSet m t (k + 1)) x).isSome = true := by
      intro x hx
      rw [assocGet_set]
      by_cases hxt : t = x
      · simp [hxt]
      · rw [if_neg hxt]
        exact hdom x (by simp [hx])
    obtain ⟨m2, hm2, hget⟩ := ih (assocSet m t (k + 1)) hdom2
    refine ⟨m2, ?_, ?_⟩
    · rw [List.foldlM_cons, hbump, except_ok_bind]
      exact hm2
    · intro n
      rw [hget n, assocGet_set]
      by_cases hn : t = n
      · subst hn
        rw [hk]
        simp [List.count_cons]
        omega
      · rw [if_neg hn]
        have : (t :: rest).count n = rest.count n := by
          simp [List.count_cons, Ne.symm hn]
        rw [this]

/-- What `__init__` leaves in `in_degree`: the start entry is *assigned* 1
(overwriting any real-edge count), every other node name maps to its total
incoming-target count across all source nodes, connection types and output
ports. -/
theorem inDegreeInit_spec (wf : WorkflowEngine.WorkflowPayload) (start : String)
    (h3 : ∀ t ∈ WorkflowEngine.allTargetNames wf.connections,
      t ∈ WorkflowEngine.names wf) :
    ∃ m, WorkflowEngine.inDegreeInit wf start = .ok m ∧
      ∀ n, assocGet m n =
        if n = start then some 1
        else if n ∈ WorkflowEngine.names wf then
          some ((WorkflowEngine.allTargetNames wf.connections).count n)
        else Option.none := by
  have hdom : ∀ t ∈ WorkflowEngine.allTargetNames wf.connections,
      (assocGet (WorkflowEngine.initDeg wf) t).isSome = true := by
    intro t ht
    rw [initDeg_get, if_pos (h3 t ht)]
    rfl
  obtain ⟨m0, hm0, hget⟩ :=
    bumpFold_spec (WorkflowEngine.allTargetNames wf.connections)
      (WorkflowEngine.initDeg wf) hdom
  refine ⟨assocSet m0 start 1, ?_, ?_⟩
  · unfold WorkflowEngine.inDegreeInit WorkflowEngine.computeInDegree
    rw [hm0]
    rfl
  · intro n
    rw [assocGet_set]
    by_cases hn : start = n
    · subst hn
      simp
    · rw [if_neg hn, if_neg (Ne.symm hn), hget n, initDeg_get]
      by_cases hmem : n ∈ WorkflowEngine.names wf
      · simp [hmem]
      · simp [hmem]

/-- C1 counterexample.  In `Fixtures.wfC1` the start node has one real
incoming edge, so the claim demands `in_degree[start] = 1 + 1 = 2`; the
code *assigns* `in_degree[start] = 1`, discarding the real edge count. -/
theorem c1_in_degree_counterexample :
    WorkflowEngine.findStartName Fixtures.wfC1 = some "trigger" ∧
    (WorkflowEngine.allTargetNames Fixtures.wfC1.connections).count "trigger" = 1 ∧
    WorkflowEngine.inDegreeInit Fixtures.wfC1 "trigger" =
      .ok [("trigger", 1), ("A", 0)] ∧
    WorkflowEngine.inDegOf [("trigger", 1), ("A", 0)] "trigger" ≠ 1 + 1 :=
  ⟨rfl, rfl, rfl, by decide⟩

/-- C1 (amended): at construction `in_degree[n]` equals the number of real
upstream edges targeting `n` (summed across all source nodes, connection
types and output ports) for every non-start node; the start node's entry is
assigned the constant 1, replacing — not adding to — its real edge count. -/
theorem c1_in_degree_amended (wf : WorkflowEngine.WorkflowPayload)
    (start : String)
    (hstart : WorkflowEngine.findStartName wf = some start)
    (h3 : ∀ t ∈ WorkflowEngine.allTargetNames wf.connections,
      t ∈ WorkflowEngine.names wf) :
    ∃ m, WorkflowEngine.inDegreeInit wf start = .ok m ∧
      WorkflowEngine.inDegOf m start = 1 ∧
      ∀ n, n ∈ WorkflowEngine.names wf → n ≠ start →
        WorkflowEngine.inDegOf m n =
          (WorkflowEngine.allTargetNames wf.connections).count n := by
  obtain ⟨m, hm, hget⟩ := inDegreeInit_spec wf start h3
  refine ⟨m, hm, ?_, ?_⟩
  · unfold WorkflowEngine.inDegOf
    rw [hget start, if_pos rfl]
    rfl
  · intro n hmem hne
    unfold WorkflowEngine.inDegOf
    rw [hget n, if_neg hne, if_pos hmem]
    rfl

/-- C1 witness: the amended theorem applied to `Fixtures.wfC1`. -/
theorem c1_in_degree_amended_witness :
    ∃ m, WorkflowEngine.inDegreeInit Fixtures.wfC1 "trigger" = .ok m ∧
      WorkflowEngine.inDegOf m "trigger" = 1 ∧
      ∀ n, n ∈ WorkflowEngine.names Fixtures.wfC1 → n ≠ "trigger" →
        WorkflowEngine.inDegOf m n =
          (WorkflowEngine.allTargetNames Fixtures.wfC1.connections).count n :=
  c1_in_degree_amended Fixtures.wfC1 "trigger" rfl (by decide)

/-! ## C2 — per-node error containment and the catch clause -/

theorem appendOne_fst (inDeg : List (String × Nat))
    (sq : WorkflowEngine.EngineState × List String) (cv : String × PyVal) :
    (WorkflowEngine.appendOne inDeg sq cv).1.exec = sq.1.exec ∧
    (WorkflowEngine.appendOne inDeg sq cv).1.log = sq.1.log := by
  obtain ⟨st, q⟩ := sq
  obtain ⟨c, v⟩ := cv
  unfold WorkflowEngine.appendOne
  dsimp only
  split <;> exact ⟨rfl, rfl⟩

theorem appendOne_bufGet (inDeg : List (String × Nat))
    (sq : WorkflowEngine.EngineState × List String) (c : String) (v : PyVal)
    (x : String) :
    WorkflowEngine.bufGet (WorkflowEngine.appendOne inDeg sq (c, v)).1 x =
      if c = x then WorkflowEngine.bufGet sq.1 c ++ [v]
      else WorkflowEngine.bufGet sq.1 x := by
  obtain ⟨st, q⟩ := sq
  unfold WorkflowEngine.appendOne
  dsimp only
  split
  all_goals
    unfold WorkflowEngine.bufGet
    dsimp only
    rw [assocGet_set]
    by_cases hcx : c = x
    · subst hcx
      simp
    · simp [hcx]

theorem propagate_fst (inDeg : List (String × Nat)) :
    ∀ (pairs : List (String × PyVal))
      (sq : WorkflowEngine.EngineState × List String),
      (WorkflowEngine.propagate inDeg pairs sq).1.exec = sq.1.exec ∧
      (WorkflowEngine.propagate inDeg pairs sq).1.log = sq.1.log := by
  intro pairs
  induction pairs with
  | nil => intro sq; exact ⟨rfl, rfl⟩
  | cons cv rest ih =>
    intro sq
    unfold WorkflowEngine.propagate
    obtain ⟨h1, h2⟩ := ih (WorkflowEngine.appendOne inDeg sq cv)
    obtain ⟨h3, h4⟩ := appendOne_fst inDeg sq cv
    exact ⟨h1.trans h3, h2.trans h4⟩

theorem propagate_bufGet (inDeg : List (String × Nat)) :
    ∀ (pairs : List (String × PyVal))
      (sq : WorkflowEngine.EngineState × List String) (x : String),
      WorkflowEngine.bufGet (WorkflowEngine.propagate inDeg pairs sq).1 x =
        WorkflowEngine.bufGet sq.1 x ++
          (pairs.filter (fun p => p.1 == x)).map Prod.snd := by
  intro pairs
  induction pairs with
  | nil => intro sq x; simp [WorkflowEngine.propagate]
  | cons cv rest ih =>
    intro sq x
    obtain ⟨c, v⟩ := cv
    unfold WorkflowEngine.propagate
    rw [ih (WorkflowEngine.appendOne inDeg sq (c, v)) x,
      appendOne_bufGet inDeg sq c v x]
    by_cases hcx : c = x
    · subst hcx
      simp [List.filter]
    · simp [List.filter, beq_eq_false_iff_ne.mpr hcx, hcx]

/-- Filtering a constant-value message list for one child yields that
child's occurrence count of copies. -/
theorem filter_map_const (children : List String) (v : PyVal) (x : String) :
    ((children.map (fun c => (c, v))).filter (fun p => p.1 == x)).map Prod.snd =
      List.replicate (children.count x) v := by
  induction children with
  | nil => rfl
  | cons c rest ih =>
    by_cases hcx : c = x
    · subst hcx
      simp only [List.map_cons, List.filter_cons, beq_self_eq_true, if_pos,
        List.map_cons, List.count_cons, ih]
      simp [List.replicate_succ]
    · simp only [List.map_cons, List.filter_cons,
        beq_eq_false_iff_ne.mpr hcx, Bool.false_eq_true, if_false, ih,
        List.count_cons]
      simp [beq_eq_false_iff_ne.mpr hcx]

/-- C2 counterexample.  In `Fixtures.wfC2` the http node's `method` is the
integer 5; `method.upper()` raises `AttributeError`, a class outside the
scheduler's `except (ValueError, KeyError, TypeError, httpx.HTTPError)`
clause, and the whole run aborts instead of recording a per-node error and
returning the state map. -/
theorem c2_error_counterexample :
    WorkflowEngine.run Fixtures.net0 Fixtures.wfC2 =
      .error ⟨.attributeError,
        "\x27int\x27 object has no attribute \x27upper\x27"⟩ := rfl

/-- C2 (amended): when the dequeued node's execution raises an exception of
a *caught* class (`ValueError`, `KeyError`, `TypeError`, `httpx.HTTPError`),
the scheduler writes `{error: str(e)}` for that node, appends `SKIP_SIGNAL`
to every child occurrence across all output ports, does not re-raise, and
the loop continues; an exception of any other class propagates and aborts
the run. -/
theorem c2_error_containment_amended (net : Nat → AppTasks.NetResult)
    (wf : WorkflowEngine.WorkflowPayload) (inDeg : List (String × Nat))
    (n : String) (st : WorkflowEngine.EngineState) (q : List String)
    (nd : WorkflowEngine.Node) (e : Exc)
    (hnd : WorkflowEngine.nodesByName wf n = some nd)
    (hskip : (WorkflowEngine.bufGet st n).all
      (fun i => PyVal.pyEq i WorkflowEngine.SKIP_SIGNAL) = false)
    (herr : WorkflowEngine.execute_node net st.exec nd
      (WorkflowEngine.shapedInput st n nd) = .error e) :
    (WorkflowEngine.caughtClass e.cls = true →
      ∃ st2 q2, WorkflowEngine.processNode net wf inDeg n st q = .ok (st2, q2) ∧
        st2.exec = dictSet st.exec n (WorkflowEngine.errEntry e.msg) ∧
        st2.log = st.log ++ [n] ∧
        ∀ c, WorkflowEngine.bufGet st2 c =
          WorkflowEngine.bufGet st c ++
            List.replicate ((WorkflowEngine.get_all_children wf n).count c)
              WorkflowEngine.SKIP_SIGNAL) ∧
    (WorkflowEngine.caughtClass e.cls = false →
      WorkflowEngine.processNode net wf inDeg n st q = .error e) := by
  constructor
  · intro hc
    unfold WorkflowEngine.processNode
    rw [hnd]
    dsimp only
    rw [hskip]
    simp only [Bool.false_eq_true, if_false]
    rw [herr]
    dsimp only
    rw [hc]
    simp only [if_true]
    refine ⟨_, _, rfl, ?_, ?_, ?_⟩
    · exact (propagate_fst inDeg _ _).1
    · exact (propagate_fst inDeg _ _).2
    · intro c
      rw [propagate_bufGet inDeg _ _ c]
      dsimp only
      rw [filter_map_const]
      rfl
  · intro hc
    unfold WorkflowEngine.processNode
    rw [hnd]
    dsimp only
    rw [hskip]
    simp only [Bool.false_eq_true, if_false]
    rw [herr]
    dsimp only
    rw [hc]
    simp only [Bool.false_eq_true, if_false]

/-- C2 witness: the amended theorem applied to the concrete mid-run state of
`Fixtures.wfErr`, where the `bad` calculate node raises
`ValueError: Unknown operation` — a caught class. -/
theorem c2_error_containment_amended_witness :
    ∃ st2 q2, WorkflowEngine.processNode Fixtures.net0 Fixtures.wfErr
        [("trigger", 1), ("bad", 1)] "bad" Fixtures.stErr [] = .ok (st2, q2) ∧
      st2.exec = dictSet Fixtures.stErr.exec "bad"
        (WorkflowEngine.errEntry
          "Unknown operation: noSuchOp. Valid: add, sub, mul, divide") ∧
      st2.log = Fixtures.stErr.log ++ ["bad"] ∧
      ∀ c, WorkflowEngine.bufGet st2 c =
        WorkflowEngine.bufGet Fixtures.stErr c ++
          List.replicate
            ((WorkflowEngine.get_all_children Fixtures.wfErr "bad").count c)
            WorkflowEngine.SKIP_SIGNAL :=
  (c2_error_containment_amended Fixtures.net0 Fixtures.wfErr
    [("trigger", 1), ("bad", 1)] "bad" Fixtures.stErr [] Fixtures.badCalcNode
    ⟨.valueError, "Unknown operation: noSuchOp. Valid: add, sub, mul, divide"⟩
    rfl rfl rfl).1 rfl

/-! ## C3 — exactly-one-entry coverage of `execution_state` -/

theorem dictGet_cons (k1 : String) (v1 : PyVal) (rest : List (String × PyVal))
    (k : String) :
    dictGet ((k1, v1) :: rest) k =
      if k1 = k then some v1 else dictGet rest k := by
  unfold dictGet
  by_cases h : k1 = k
  · subst h
    simp [List.find?]
  · simp [List.find?, beq_eq_false_iff_ne.mpr h, h]

theorem dictGet_set (d : List (String × PyVal)) (k : String) (v : PyVal)
    (x : String) :
    dictGet (dictSet d k v) x = if k = x then some v else dictGet d x := by
  induction d with
  | nil =>
    unfold dictSet
    rw [dictGet_cons]
  | cons p rest ih =>
    obtain ⟨k1, v1⟩ := p
    unfold dictSet
    by_cases h : k1 = k
    · subst h
      simp only [beq_self_eq_true, if_true]
      rw [dictGet_cons, dictGet_cons]
      by_cases h2 : k1 = x <;> simp [h2]
    · simp only [beq_eq_false_iff_ne.mpr h, Bool.false_eq_true, if_false]
      rw [dictGet_cons, ih, dictGet_cons]
      by_cases h2 : k = x
      · subst h2
        simp [h]
      · simp [h2]

theorem dictGet_none_iff (d : List (String × PyVal)) (k : String) :
    dictGet d k = Option.none ↔ k ∉ d.map Prod.fst := by
  induction d with
  | nil => simp [dictGet]
  | cons p rest ih =>
    obtain ⟨k1, v1⟩ := p
    rw [dictGet_cons]
    by_cases h : k1 = k
    · subst h
      simp
    · simp [h, ih, Ne.symm h]

theorem dictSet_keys_absent (d : List (String × PyVal)) (k : String) (v : PyVal)
    (h : dictGet d k = Option.none) :
    (dictSet d k v).map Prod.fst = d.map Prod.fst ++ [k] := by
  induction d with
  | nil => rfl
  | cons p rest ih =>
    obtain ⟨k1, v1⟩ := p
    rw [dictGet_cons] at h
    by_cases hk : k1 = k
    · rw [if_pos hk] at h
      exact absurd h (by simp)
    · rw [if_neg hk] at h
      unfold dictSet
      simp only [beq_eq_false_iff_ne.mpr hk, Bool.false_eq_true, if_false,
        List.map_cons, ih h, List.cons_append]

theorem assocGet_mem {β} (m : List (String × β)) (k : String) (v : β)
    (h : assocGet m k = some v) : (k, v) ∈ m := by
  induction m with
  | nil => simp [assocGet] at h
  | cons p rest ih =>
    obtain ⟨k1, v1⟩ := p
    rw [assocGet_cons] at h
    by_cases hk : k1 = k
    · rw [if_pos hk] at h
      subst hk
      injection h with h2
      subst h2
      exact List.mem_cons_self _ _
    · rw [if_neg hk] at h
      exact List.mem_cons_of_mem _ (ih h)

theorem assocSet_subset {β} (m : List (String × β)) (k : String) (v : β) :
    ∀ p ∈ assocSet m k v, p ∈ m ∨ p = (k, v) := by
  induction m with
  | nil =>
    intro p hp
    right
    simpa [assocSet] using hp
  | cons q rest ih =>
    obtain ⟨k1, v1⟩ := q
    intro p hp
    unfold assocSet at hp
    by_cases hk : (k1 == k) = true
    · rw [if_pos hk] at hp
      rcases List.mem_cons.mp hp with h | h
      · right; exact h
      · left; exact List.mem_cons_of_mem _ h
    · rw [if_neg hk] at hp
      rcases List.mem_cons.mp hp with h | h
      · left; rw [h]; exact List.mem_cons_self _ _
      · rcases ih p h with h2 | h2
        · left; exact List.mem_cons_of_mem _ h2
        · right; exact h2

theorem portsTargets_cons (p : List WorkflowEngine.ConnectionTarget)
    (rest : List (List WorkflowEngine.ConnectionTarget)) :
    WorkflowEngine.portsTargets (p :: rest) =
      WorkflowEngine.portTargets p ++ WorkflowEngine.portsTargets rest := rfl

theorem connsTargets_cons (e : String × List (List WorkflowEngine.ConnectionTarget))
    (rest : WorkflowEngine.Conns) :
    WorkflowEngine.connsTargets (e :: rest) =
      WorkflowEngine.portsTargets e.2 ++ WorkflowEngine.connsTargets rest := rfl

theorem allTargetNames_cons (e : String × WorkflowEngine.Conns)
    (rest : List (String × WorkflowEngine.Conns)) :
    WorkflowEngine.allTargetNames (e :: rest) =
      WorkflowEngine.connsTargets e.2 ++ WorkflowEngine.allTargetNames rest := rfl

theorem mem_connsTargets_count (k : String)
    (ps : List (List WorkflowEngine.ConnectionTarget))
    (cs : WorkflowEngine.Conns) (h : (k, ps) ∈ cs) (c : String) :
    (WorkflowEngine.portsTargets ps).count c ≤
      (WorkflowEngine.connsTargets cs).count c := by
  induction cs with
  | nil => cases h
  | cons e rest ih =>
    rcases List.mem_cons.mp h with rfl | he
    · rw [connsTargets_cons, List.count_append]
      exact Nat.le_add_right _ _
    · rw [connsTargets_cons, List.count_append]
      exact le_trans (ih he) (Nat.le_add_left _ _)

theorem mem_allTargetNames_count (n : String) (cs : WorkflowEngine.Conns)
    (CL : List (String × WorkflowEngine.Conns)) (h : (n, cs) ∈ CL) (c : String) :
    (WorkflowEngine.connsTargets cs).count c ≤
      (WorkflowEngine.allTargetNames CL).count c := by
  induction CL with
  | nil => cases h
  | cons e rest ih =>
    rcases List.mem_cons.mp h with rfl | he
    · rw [allTargetNames_cons, List.count_append]
      exact Nat.le_add_right _ _
    · rw [allTargetNames_cons, List.count_append]
      exact le_trans (ih he) (Nat.le_add_left _ _)

theorem children_le_conSel (wf : WorkflowEngine.WorkflowPayload) (n c : String) :
    (WorkflowEngine.get_all_children wf n).count c ≤
      (WorkflowEngine.conSel wf.connections n).count c := by
  cases hg : assocGet wf.connections n with
  | none =>
    simp [WorkflowEngine.get_all_children, WorkflowEngine.mainPorts,
      WorkflowEngine.conSel, hg, WorkflowEngine.portsTargets]
  | some cs =>
    cases hm : assocGet cs "main" with
    | none =>
      simp [WorkflowEngine.get_all_children, WorkflowEngine.mainPorts,
        WorkflowEngine.conSel, hg, hm, WorkflowEngine.portsTargets]
    | some ports =>
      have hgoal : WorkflowEngine.get_all_children wf n =
          WorkflowEngine.portsTargets ports := by
        unfold WorkflowEngine.get_all_children WorkflowEngine.mainPorts
        rw [hg]
        dsimp only
        rw [hm]
        rfl
      have hsel : WorkflowEngine.conSel wf.connections n =
          WorkflowEngine.connsTargets cs := by
        unfold WorkflowEngine.conSel
        rw [hg]
      rw [hgoal, hsel]
      exact mem_connsTargets_count "main" ports cs (assocGet_mem cs "main" ports hm) c

theorem skippedGo_high (a : Nat) :
    ∀ (ports : List (List WorkflowEngine.ConnectionTarget)) (i : Nat), a < i →
      WorkflowEngine.skippedGo a ports i = WorkflowEngine.portsTargets ports := by
  intro ports
  induction ports with
  | nil => intro i _; rfl
  | cons p rest ih =>
    intro i hi
    unfold WorkflowEngine.skippedGo
    rw [if_pos (by omega : i ≠ a), ih (i + 1) (by omega), portsTargets_cons]

theorem skippedGo_split (a : Nat) (c : String) :
    ∀ (ports : List (List WorkflowEngine.ConnectionTarget)) (i : Nat), i ≤ a →
      (WorkflowEngine.skippedGo a ports i).count c +
        (WorkflowEngine.portTargets (ports.getD (a - i) [])).count c =
        (WorkflowEngine.portsTargets ports).count c := by
  intro ports
  induction ports with
  | nil =>
    intro i _
    simp [WorkflowEngine.skippedGo, WorkflowEngine.portsTargets,
      WorkflowEngine.portTargets]
  | cons p rest ih =>
    intro i hi
    by_cases hia : i = a
    · subst hia
      unfold WorkflowEngine.skippedGo
      rw [if_neg (by omega : ¬ i ≠ i), skippedGo_high i rest (i + 1) (by omega),
        Nat.sub_self, List.getD_cons_zero, portsTargets_cons, List.count_append]
      omega
    · unfold WorkflowEngine.skippedGo
      rw [if_pos (by omega : i ≠ a)]
      have hsub : a - i = (a - (i + 1)) + 1 := by omega
      rw [hsub, List.getD_cons_succ, portsTargets_cons, List.count_append,
        List.count_append]
      have := ih (i + 1) (by omega)
      omega

theorem children_split (wf : WorkflowEngine.WorkflowPayload) (n : String)
    (k : Nat) (c : String) :
    (WorkflowEngine.get_next_nodes wf n k).count c +
      (WorkflowEngine.get_skipped_nodes wf n k).count c =
      (WorkflowEngine.get_all_children wf n).count c := by
  unfold WorkflowEngine.get_next_nodes WorkflowEngine.get_skipped_nodes
    WorkflowEngine.get_all_children
  have := skippedGo_split k c (WorkflowEngine.mainPorts wf n) 0 (Nat.zero_le k)
  rw [Nat.sub_zero] at this
  omega

theorem conSel_nil (n : String) : WorkflowEngine.conSel [] n = [] := rfl

theorem conSel_cons (k : String) (cs : WorkflowEngine.Conns)
    (CL : List (String × WorkflowEngine.Conns)) (n : String) :
    WorkflowEngine.conSel ((k, cs) :: CL) n =
      if k = n then WorkflowEngine.connsTargets cs
      else WorkflowEngine.conSel CL n := by
  unfold WorkflowEngine.conSel
  rw [assocGet_cons]
  by_cases h : k = n
  · rw [if_pos h, if_pos h]
  · rw [if_neg h, if_neg h]

/-- Over a duplicate-free list of source nodes, the summed per-node target
counts are bounded by the total target count: each distinct source consumes
a distinct `connections` entry. -/
theorem sum_conSel_bound (c : String) :
    ∀ (CL : List (String × WorkflowEngine.Conns)) (L : List String), L.Nodup →
      (L.map (fun n => (WorkflowEngine.conSel CL n).count c)).sum ≤
        (WorkflowEngine.allTargetNames CL).count c := by
  intro CL
  induction CL with
  | nil =>
    intro L _
    simp [conSel_nil]
  | cons e CL ih =>
    obtain ⟨k, cs⟩ := e
    intro L hL
    rw [allTargetNames_cons, List.count_append]
    dsimp only
    by_cases hk : k ∈ L
    · have hperm : L.Perm (k :: L.erase k) := List.perm_cons_erase hk
      have hsum :=
        (hperm.map (fun n => (WorkflowEngine.conSel ((k, cs) :: CL) n).count c)).sum_eq
      rw [hsum, List.map_cons, List.sum_cons]
      have hmapeq : (L.erase k).map
            (fun n => (WorkflowEngine.conSel ((k, cs) :: CL) n).count c) =
          (L.erase k).map (fun n => (WorkflowEngine.conSel CL n).count c) := by
        apply List.map_congr_left
        intro m hm
        have hmk : m ≠ k := ((List.Nodup.mem_erase_iff hL).mp hm).1
        rw [conSel_cons, if_neg (Ne.symm hmk)]
      rw [conSel_cons, if_pos rfl, hmapeq]
      have := ih (L.erase k) (hL.erase k)
      omega
    · have hmapeq : L.map
            (fun n => (WorkflowEngine.conSel ((k, cs) :: CL) n).count c) =
          L.map (fun n => (WorkflowEngine.conSel CL n).count c) := by
        apply List.map_congr_left
        intro m hm
        have hmk : k ≠ m := fun he => hk (he ▸ hm)
        rw [conSel_cons, if_neg hmk]
      rw [hmapeq]
      exact le_trans (ih L hL) (Nat.le_add_left _ _)

/-- The total number of messages a duplicate-free execution order can ever
deliver to `c` is at most `c`'s total incoming-target count. -/
theorem sumLog_le_allTargets (wf : WorkflowEngine.WorkflowPayload)
    (L : List String) (hL : L.Nodup) (c : String) :
    WorkflowEngine.sumLog wf L c ≤
      (WorkflowEngine.allTargetNames wf.connections).count c := by
  unfold WorkflowEngine.sumLog
  refine le_trans ?_ (sum_conSel_bound c wf.connections L hL)
  apply List.sum_le_sum
  intro n _
  exact children_le_conSel wf n c

theorem children_le_sumLog (wf : WorkflowEngine.WorkflowPayload)
    (L : List String) (n : String) (hn : n ∈ L) (c : String) :
    (WorkflowEngine.get_all_children wf n).count c ≤
      WorkflowEngine.sumLog wf L c := by
  unfold WorkflowEngine.sumLog
  exact List.single_le_sum (fun x _ => Nat.zero_le x) _ (List.mem_map_of_mem _ hn)

theorem sumLog_append (wf : WorkflowEngine.WorkflowPayload) (L : List String)
    (n : String) (c : String) :
    WorkflowEngine.sumLog wf (L ++ [n]) c =
      WorkflowEngine.sumLog wf L c +
        (WorkflowEngine.get_all_children wf n).count c := by
  unfold WorkflowEngine.sumLog
  simp

/-- If the increment fold of `computeInDegree` succeeded, every incremented
key was in the initial domain (`+= 1` on a missing key raises). -/
theorem bumpFold_ok_dom :
    ∀ (ts : List String) (m m2 : List (String × Nat)),
      List.foldlM WorkflowEngine.bump m ts = .ok m2 →
      ∀ t ∈ ts, (assocGet m t).isSome = true := by
  intro ts
  induction ts with
  | nil =>
    intro m m2 _ t ht
    cases ht
  | cons t rest ih =>
    intro m m2 hfold x hx
    rw [List.foldlM_cons] at hfold
    cases hb : WorkflowEngine.bump m t with
    | error e =>
      rw [hb, except_error_bind] at hfold
      cases hfold
    | ok m1 =>
      rw [hb, except_ok_bind] at hfold
      obtain ⟨nv, hnv⟩ : ∃ nv, assocGet m t = some nv := by
        unfold WorkflowEngine.bump at hb
        cases hmt : assocGet m t
        · rw [hmt] at hb; cases hb
        · exact ⟨_, rfl⟩
      rcases List.mem_cons.mp hx with rfl | hx2
      · rw [hnv]; rfl
      · have hm1 : m1 = assocSet m t (nv + 1) := by
          have hb2 := hb
          unfold WorkflowEngine.bump at hb2
          rw [hnv] at hb2
          injection hb2 with h2
          exact h2.symm
        have hrest := ih m1 m2 hfold x hx2
        rw [hm1, assocGet_set] at hrest
        by_cases htx : t = x
        · subst htx; rw [hnv]; rfl
        · rwa [if_neg htx] at hrest

/-- A successful in-degree computation certifies that every connection
target is a real node name. -/
theorem computeInDegree_ok_targets (wf : WorkflowEngine.WorkflowPayload)
    (m : List (String × Nat))
    (h : WorkflowEngine.computeInDegree wf = .ok m) :
    ∀ t ∈ WorkflowEngine.allTargetNames wf.connections,
      t ∈ WorkflowEngine.names wf := by
  intro t ht
  unfold WorkflowEngine.computeInDegree at h
  have hsome := bumpFold_ok_dom (WorkflowEngine.allTargetNames wf.connections)
    (WorkflowEngine.initDeg wf) m h t ht
  rw [initDeg_get] at hsome
  by_cases hm : t ∈ WorkflowEngine.names wf
  · exact hm
  · rw [if_neg hm] at hsome
    simp at hsome

theorem inDegreeInit_ok_elim (wf : WorkflowEngine.WorkflowPayload)
    (start : String) (inDeg : List (String × Nat))
    (h : WorkflowEngine.inDegreeInit wf start = .ok inDeg) :
    ∃ m0, WorkflowEngine.computeInDegree wf = .ok m0 ∧
      inDeg = assocSet m0 start 1 := by
  unfold WorkflowEngine.inDegreeInit at h
  cases hc : WorkflowEngine.computeInDegree wf with
  | error e =>
    rw [hc] at h
    simp only [Functor.map, Except.map] at h
    exact Except.noConfusion h
  | ok m0 =>
    rw [hc] at h
    simp only [Functor.map, Except.map] at h
    injection h with h2
    exact ⟨m0, rfl, h2.symm⟩

theorem findStart_mem (wf : WorkflowEngine.WorkflowPayload) (start : String)
    (h : WorkflowEngine.findStartName wf = some start) :
    start ∈ WorkflowEngine.names wf := by
  unfold WorkflowEngine.findStartName at h
  cases hf : wf.nodes.find? (fun nd => strContains nd.type "manual_trigger") with
  | none => rw [hf] at h; cases h
  | some nd =>
    rw [hf] at h
    have hm := List.mem_of_find?_eq_some hf
    injection h with h2
    subst h2
    exact List.mem_map_of_mem WorkflowEngine.Node.name hm

/-- Every buffer the `run` initialisation builds is empty. -/
theorem bufInit_values :
    ∀ (nodes : List WorkflowEngine.Node) (acc : List (String × List PyVal)),
      (∀ p ∈ acc, p.2 = ([] : List PyVal)) →
      ∀ p ∈ nodes.foldl (fun m nd => assocSet m nd.name ([] : List PyVal)) acc,
        p.2 = ([] : List PyVal) := by
  intro nodes
  induction nodes with
  | nil =>
    intro acc h
    exact h
  | cons nd rest ih =>
    intro acc h
    rw [List.foldl_cons]
    apply ih
    intro p hp
    rcases assocSet_subset acc nd.name [] p hp with h2 | h2
    · exact h p h2
    · rw [h2]

theorem bufInit_get (wf : WorkflowEngine.WorkflowPayload) (c : String) :
    (assocGet (wf.nodes.foldl
        (fun m nd => assocSet m nd.name ([] : List PyVal)) []) c).getD [] = [] := by
  cases hg : assocGet (wf.nodes.foldl
      (fun m nd => assocSet m nd.name ([] : List PyVal)) []) c with
  | none => rfl
  | some l =>
    have hm := assocGet_mem _ c l hg
    have hv := bufInit_values wf.nodes [] (by intro p hp; cases hp) (c, l) hm
    simpa using hv

theorem inDegOf_def (m : List (String × Nat)) (c : String) :
    WorkflowEngine.inDegOf m c = (assocGet m c).getD 0 := rfl

theorem count_cons_le (a x : String) (l : List String) :
    l.count x ≤ (a :: l).count x := by
  by_cases h : a = x <;> simp [List.count_cons, h]

theorem appendOne_snd (inDeg : List (String × Nat))
    (st : WorkflowEngine.EngineState) (q : List String) (c : String) (v : PyVal) :
    (WorkflowEngine.appendOne inDeg (st, q) (c, v)).2 =
      if (WorkflowEngine.bufGet st c ++ [v]).length = (assocGet inDeg c).getD 0
      then q ++ [c] else q := by
  unfold WorkflowEngine.appendOne
  dsimp only
  by_cases hc : (WorkflowEngine.bufGet st c ++ [v]).length = (assocGet inDeg c).getD 0
  · rw [if_pos hc, if_pos hc]
  · rw [if_neg hc, if_neg hc]

/-- Delivering one `(child, value)` message preserves the mid-propagation
invariant: a child whose buffer just filled cannot already be logged or
queued (its in-degree bound would be exceeded), and the start node can never
be re-enqueued. -/
theorem appendOne_midinv (net : Nat → AppTasks.NetResult)
    (wf : WorkflowEngine.WorkflowPayload) (inDeg : List (String × Nat))
    (start n c : String) (v : PyVal) (rest : List (String × PyVal))
    (st : WorkflowEngine.EngineState) (q : List String)
    (hDeg : ∀ x, WorkflowEngine.inDegOf inDeg x =
      if x = start then 1
      else if x ∈ WorkflowEngine.names wf then
        (WorkflowEngine.allTargetNames wf.connections).count x
      else 0)
    (h : WorkflowEngine.MidInv net wf inDeg start n st q ((c, v) :: rest)) :
    WorkflowEngine.MidInv net wf inDeg start n
      (WorkflowEngine.appendOne inDeg (st, q) (c, v)).1
      (WorkflowEngine.appendOne inDeg (st, q) (c, v)).2 rest := by
  obtain ⟨hND, hLN, hQN, hEK, hLL, hBC, hQF, hLF, hNS, hRB, hRN, hPV⟩ := h
  have hlogNodup : st.log.Nodup := (List.nodup_append.mp hND).1
  have hcname : c ∈ WorkflowEngine.names wf := hRN c (by simp)
  have hrc : (((c, v) :: rest).map Prod.fst).count c =
      (rest.map Prod.fst).count c + 1 := by
    simp [List.count_cons]
  have hcnotq : c ∉ q := by
    intro hcq
    have hfull := hQF c hcq
    have hbc := hBC c
    rw [hrc] at hbc
    by_cases hcs : c = start
    · exact hNS (hcs ▸ hcq)
    · have hid := hDeg c
      rw [if_neg hcs, if_pos hcname] at hid
      have hbound := sumLog_le_allTargets wf st.log hlogNodup c
      have hsi : WorkflowEngine.startInit start c = 0 := by
        unfold WorkflowEngine.startInit
        rw [if_neg hcs]
      omega
  have hexecE : (WorkflowEngine.appendOne inDeg (st, q) (c, v)).1.exec = st.exec :=
    (appendOne_fst inDeg (st, q) (c, v)).1
  have hexecL : (WorkflowEngine.appendOne inDeg (st, q) (c, v)).1.log = st.log :=
    (appendOne_fst inDeg (st, q) (c, v)).2
  have hbuf : ∀ x,
      WorkflowEngine.bufGet (WorkflowEngine.appendOne inDeg (st, q) (c, v)).1 x =
        if c = x then WorkflowEngine.bufGet st c ++ [v]
        else WorkflowEngine.bufGet st x := by
    intro x
    rw [appendOne_bufGet inDeg (st, q) c v x]
  have hsnd := appendOne_snd inDeg st q c v
  by_cases henq :
      (WorkflowEngine.bufGet st c ++ [v]).length = (assocGet inDeg c).getD 0
  · rw [if_pos henq] at hsnd
    have hcnotlog : c ∉ st.log := by
      intro hcl
      have hlf := hLF c hcl
      rw [inDegOf_def] at hlf
      simp only [List.length_append, List.length_singleton] at henq
      omega
    have hcns : c ≠ start := by
      intro hcs
      subst hcs
      have hid := hDeg c
      rw [if_pos rfl, inDegOf_def] at hid
      have hbc := hBC c
      rw [hrc] at hbc
      have hsi : WorkflowEngine.startInit c c = 1 := by
        unfold WorkflowEngine.startInit
        rw [if_pos rfl]
      have hchild := children_le_sumLog wf st.log n hLL c
      have hrb := hRB c
      rw [hrc] at hrb
      simp only [List.length_append, List.length_singleton] at henq
      omega
    refine ⟨?_, ?_, ?_, ?_, ?_, ?_, ?_, ?_, ?_, ?_, ?_, ?_⟩
    · rw [hexecL, hsnd, ← List.append_assoc, List.nodup_append]
      refine ⟨hND, List.nodup_singleton c, ?_⟩
      intro a ha hb
      rcases List.mem_singleton.mp hb with rfl
      rcases List.mem_append.mp ha with h1 | h1
      · exact hcnotlog h1
      · exact hcnotq h1
    · rw [hexecL]
      exact hLN
    · rw [hsnd]
      intro x hx
      rcases List.mem_append.mp hx with h1 | h1
      · exact hQN x h1
      · rcases List.mem_singleton.mp h1 with rfl
        exact hcname
    · rw [hexecE, hexecL]
      exact hEK
    · rw [hexecL]
      exact hLL
    · intro x
      rw [hexecL, hbuf x]
      by_cases hcx : c = x
      · subst hcx
        rw [if_pos rfl]
        have h1 := hBC c
        rw [hrc] at h1
        simp only [List.length_append, List.length_singleton]
        omega
      · rw [if_neg hcx]
        have h1 := hBC x
        have h2 : (((c, v) :: rest).map Prod.fst).count x =
            (rest.map Prod.fst).count x := by
          simp [List.count_cons, hcx]
        omega
    · rw [hsnd]
      intro x hx
      rw [hbuf x]
      rcases List.mem_append.mp hx with h1 | h1
      · have hxc : ¬ c = x := fun he => hcnotq (he ▸ h1)
        rw [if_neg hxc]
        exact hQF x h1
      · rcases List.mem_singleton.mp h1 with rfl
        rw [if_pos rfl, inDegOf_def]
        exact henq
    · rw [hexecL]
      intro x hxl
      rw [hbuf x]
      by_cases hcx : c = x
      · subst hcx
        exact absurd hxl hcnotlog
      · rw [if_neg hcx]
        exact hLF x hxl
    · rw [hsnd]
      intro hs
      rcases List.mem_append.mp hs with h1 | h1
      · exact hNS h1
      · rcases List.mem_singleton.mp h1 with h2
        exact hcns h2.symm
    · intro x
      exact le_trans (count_cons_le c x (rest.map Prod.fst)) (hRB x)
    · intro x hx
      exact hRN x (List.mem_cons_of_mem _ hx)
    · rw [hexecE, hexecL]
      exact hPV
  · rw [if_neg henq] at hsnd
    refine ⟨?_, ?_, ?_, ?_, ?_, ?_, ?_, ?_, ?_, ?_, ?_, ?_⟩
    · rw [hexecL, hsnd]
      exact hND
    · rw [hexecL]
      exact hLN
    · rw [hsnd]
      exact hQN
    · rw [hexecE, hexecL]
      exact hEK
    · rw [hexecL]
      exact hLL
    · intro x
      rw [hexecL, hbuf x]
      by_cases hcx : c = x
      · subst hcx
        rw [if_pos rfl]
        have h1 := hBC c
        rw [hrc] at h1
        simp only [List.length_append, List.length_singleton]
        omega
      · rw [if_neg hcx]
        have h1 := hBC x
        have h2 : (((c, v) :: rest).map Prod.fst).count x =
            (rest.map Prod.fst).count x := by
          simp [List.count_cons, hcx]
        omega
    · rw [hsnd]
      intro x hx
      rw [hbuf x]
      have hxc : ¬ c = x := fun he => hcnotq (he ▸ hx)
      rw [if_neg hxc]
      exact hQF x hx
    · rw [hexecL]
      intro x hxl
      rw [hbuf x]
      by_cases hcx : c = x
      · subst hcx
        rw [if_pos rfl]
        have hlf := hLF c hxl
        simp only [List.length_append, List.length_singleton]
        omega
      · rw [if_neg hcx]
        exact hLF x hxl
    · rw [hsnd]
      exact hNS
    · intro x
      exact le_trans (count_cons_le c x (rest.map Prod.fst)) (hRB x)
    · intro x hx
      exact hRN x (List.mem_cons_of_mem _ hx)
    · rw [hexecE, hexecL]
      exact hPV

/-- Delivering all remaining messages preserves the invariant down to an
empty remainder. -/
theorem propagate_midinv (net : Nat → AppTasks.NetResult)
    (wf : WorkflowEngine.WorkflowPayload) (inDeg : List (String × Nat))
    (start n : String)
    (hDeg : ∀ x, WorkflowEngine.inDegOf inDeg x =
      if x = start then 1
      else if x ∈ WorkflowEngine.names wf then
        (WorkflowEngine.allTargetNames wf.connections).count x
      else 0) :
    ∀ (rem : List (String × PyVal)) (st : WorkflowEngine.EngineState)
      (q : List String),
      WorkflowEngine.MidInv net wf inDeg start n st q rem →
      WorkflowEngine.MidInv net wf inDeg start n
        (WorkflowEngine.propagate inDeg rem (st, q)).1
        (WorkflowEngine.propagate inDeg rem (st, q)).2 [] := by
  intro rem
  induction rem with
  | nil =>
    intro st q h
    exact h
  | cons cv rest ih =>
    intro st q h
    obtain ⟨c, v⟩ := cv
    have hstep := appendOne_midinv net wf inDeg start n c v rest st q hDeg h
    have hres := ih (WorkflowEngine.appendOne inDeg (st, q) (c, v)).1
      (WorkflowEngine.appendOne inDeg (st, q) (c, v)).2 hstep
    unfold WorkflowEngine.propagate
    exact hres

/-- With no messages left, the mid-propagation invariant restores the loop
invariant. -/
theorem midinv_to_inv (net : Nat → AppTasks.NetResult)
    (wf : WorkflowEngine.WorkflowPayload) (inDeg : List (String × Nat))
    (start n : String) (st : WorkflowEngine.EngineState) (q : List String)
    (h : WorkflowEngine.MidInv net wf inDeg start n st q []) :
    WorkflowEngine.Inv net wf inDeg start st q := by
  obtain ⟨hND, hLN, hQN, hEK, _, hBC, hQF, hLF, hNS, _, _, hPV⟩ := h
  refine ⟨hND, hLN, hQN, hEK, ?_, hQF, hLF, ?_, hPV⟩
  · intro c
    have := hBC c
    simpa using this
  · intro hs
    exact absurd hs hNS

theorem conSel_le_allTargets (CL : List (String × WorkflowEngine.Conns))
    (n c : String) :
    (WorkflowEngine.conSel CL n).count c ≤
      (WorkflowEngine.allTargetNames CL).count c := by
  cases hg : assocGet CL n with
  | none =>
    have hsel : WorkflowEngine.conSel CL n = [] := by
      unfold WorkflowEngine.conSel
      rw [hg]
    rw [hsel]
    simp
  | some cs =>
    have hsel : WorkflowEngine.conSel CL n = WorkflowEngine.connsTargets cs := by
      unfold WorkflowEngine.conSel
      rw [hg]
    rw [hsel]
    exact mem_allTargetNames_count n cs CL (assocGet_mem CL n cs hg) c

theorem children_mem_names (wf : WorkflowEngine.WorkflowPayload) (n x : String)
    (hTgt : ∀ t ∈ WorkflowEngine.allTargetNames wf.connections,
      t ∈ WorkflowEngine.names wf)
    (hx : x ∈ WorkflowEngine.get_all_children wf n) :
    x ∈ WorkflowEngine.names wf := by
  have h1 : 0 < (WorkflowEngine.get_all_children wf n).count x :=
    List.count_pos_iff.mpr hx
  have h2 := children_le_conSel wf n x
  have h3 := conSel_le_allTargets wf.connections n x
  exact hTgt x (List.count_pos_iff.mp (by omega))

/-- Writing the dequeued node's state entry and queueing its outgoing
messages establishes the mid-propagation invariant. -/
theorem write_midinv (net : Nat → AppTasks.NetResult)
    (wf : WorkflowEngine.WorkflowPayload) (inDeg : List (String × Nat))
    (start n : String) (st : WorkflowEngine.EngineState) (rest : List String)
    (w : PyVal) (msgs : List (String × PyVal))
    (hTgt : ∀ t ∈ WorkflowEngine.allTargetNames wf.connections,
      t ∈ WorkflowEngine.names wf)
    (hInv : WorkflowEngine.Inv net wf inDeg start st (n :: rest))
    (hw : w = WorkflowEngine.skipEntry ∨
      (∃ m, w = WorkflowEngine.errEntry m) ∨
      ∃ nd ex input idx, WorkflowEngine.nodesByName wf n = some nd ∧
        WorkflowEngine.execute_node net ex nd input = .ok (w, idx))
    (hmsg : ∀ c, (msgs.map Prod.fst).count c =
      (WorkflowEngine.get_all_children wf n).count c) :
    WorkflowEngine.MidInv net wf inDeg start n
      { st with exec := dictSet st.exec n w, log := st.log ++ [n] }
      rest msgs := by
  obtain ⟨hND, hLN, hQN, hEK, hBC, hQF, hLF, hSO, hPV⟩ := hInv
  have hnName : n ∈ WorkflowEngine.names wf := hQN n (List.mem_cons_self _ _)
  have hdisj : ∀ a ∈ st.log, a ∉ n :: rest := (List.nodup_append.mp hND).2.2
  have hnNotLog : n ∉ st.log := fun hcl =>
    hdisj n hcl (List.mem_cons_self _ _)
  have hnone : dictGet st.exec n = Option.none := by
    rw [dictGet_none_iff, hEK]
    exact hnNotLog
  refine ⟨?_, ?_, ?_, ?_, ?_, ?_, ?_, ?_, ?_, ?_, ?_, ?_⟩
  · dsimp only
    rw [List.append_assoc, List.singleton_append]
    exact hND
  · dsimp only
    intro x hx
    rcases List.mem_append.mp hx with h1 | h1
    · exact hLN x h1
    · rcases List.mem_singleton.mp h1 with rfl
      exact hnName
  · intro x hx
    exact hQN x (List.mem_cons_of_mem _ hx)
  · dsimp only
    rw [dictSet_keys_absent st.exec n w hnone, hEK]
  · dsimp only
    exact List.mem_append.mpr (Or.inr (List.mem_singleton.mpr rfl))
  · intro c
    dsimp only
    rw [hmsg c, sumLog_append]
    have := hBC c
    have hb : WorkflowEngine.bufGet
        { st with exec := dictSet st.exec n w, log := st.log ++ [n] } c =
        WorkflowEngine.bufGet st c := rfl
    rw [hb]
    omega
  · intro x hx
    exact hQF x (List.mem_cons_of_mem _ hx)
  · dsimp only
    intro x hx
    rcases List.mem_append.mp hx with h1 | h1
    · exact hLF x h1
    · rcases List.mem_singleton.mp h1 with rfl
      exact le_of_eq (hQF x (List.mem_cons_self _ _)).symm
  · intro hs
    obtain ⟨he, _⟩ := hSO (List.mem_cons_of_mem _ hs)
    injection he with h1 h2
    rw [h2] at hs
    cases hs
  · intro c
    exact le_of_eq (hmsg c)
  · intro x hx
    have h1 : 0 < (msgs.map Prod.fst).count x := List.count_pos_iff.mpr hx
    rw [hmsg x] at h1
    exact children_mem_names wf n x hTgt (List.count_pos_iff.mp h1)
  · dsimp only
    intro x hx
    rcases List.mem_append.mp hx with h1 | h1
    · have hxn : ¬ n = x := fun he => hnNotLog (he ▸ h1)
      rw [dictGet_set, if_neg hxn]
      exact hPV x h1
    · rcases List.mem_singleton.mp h1 with rfl
      refine ⟨w, ?_, hw⟩
      rw [dictGet_set, if_pos rfl]

theorem map_pair_fst (l : List String) (v : PyVal) :
    (l.map (fun c => (c, v))).map Prod.fst = l := by
  induction l with
  | nil => rfl
  | cons a t ih => simp [ih]

/-- One dispatch-loop iteration: it either raises (an uncaught class, or a
missing node), or writes exactly one new `execution_state` entry and
preserves the loop invariant. -/
theorem processNode_inv (net : Nat → AppTasks.NetResult)
    (wf : WorkflowEngine.WorkflowPayload) (inDeg : List (String × Nat))
    (start n : String) (st : WorkflowEngine.EngineState) (rest : List String)
    (hDeg : ∀ x, WorkflowEngine.inDegOf inDeg x =
      if x = start then 1
      else if x ∈ WorkflowEngine.names wf then
        (WorkflowEngine.allTargetNames wf.connections).count x
      else 0)
    (hTgt : ∀ t ∈ WorkflowEngine.allTargetNames wf.connections,
      t ∈ WorkflowEngine.names wf)
    (hInv : WorkflowEngine.Inv net wf inDeg start st (n :: rest)) :
    (∃ e, WorkflowEngine.processNode net wf inDeg n st rest = .error e) ∨
    ∃ sq, WorkflowEngine.processNode net wf inDeg n st rest = .ok sq ∧
      WorkflowEngine.Inv net wf inDeg start sq.1 sq.2 ∧
      sq.1.log = st.log ++ [n] := by
  cases hnb : WorkflowEngine.nodesByName wf n with
  | none =>
    left
    refine ⟨⟨.keyError, "\x27" ++ n ++ "\x27"⟩, ?_⟩
    unfold WorkflowEngine.processNode
    rw [hnb]
  | some nd =>
    by_cases hskip : ((WorkflowEngine.bufGet st n).all
        (fun i => PyVal.pyEq i WorkflowEngine.SKIP_SIGNAL)) = true
    · right
      have heq : WorkflowEngine.processNode net wf inDeg n st rest =
          .ok (WorkflowEngine.propagate inDeg
            ((WorkflowEngine.get_all_children wf n).map
              (fun c => (c, WorkflowEngine.SKIP_SIGNAL)))
            ({ st with
               exec := dictSet st.exec n WorkflowEngine.skipEntry
               log := st.log ++ [n] }, rest)) := by
        unfold WorkflowEngine.processNode
        rw [hnb]
        dsimp only
        rw [if_pos hskip]
      have hmid := write_midinv net wf inDeg start n st rest
        WorkflowEngine.skipEntry
        ((WorkflowEngine.get_all_children wf n).map
          (fun c => (c, WorkflowEngine.SKIP_SIGNAL)))
        hTgt hInv (Or.inl rfl)
        (by intro c; rw [map_pair_fst])
      have hprop := propagate_midinv net wf inDeg start n hDeg _ _ _ hmid
      refine ⟨_, heq, midinv_to_inv net wf inDeg start n _ _ hprop, ?_⟩
      rw [(propagate_fst inDeg _ _).2]
    · rw [Bool.not_eq_true] at hskip
      cases hex : WorkflowEngine.execute_node net st.exec nd
          (WorkflowEngine.shapedInput st n nd) with
      | ok p =>
        obtain ⟨result, output_index⟩ := p
        right
        have heq : WorkflowEngine.processNode net wf inDeg n st rest =
            .ok (WorkflowEngine.propagate inDeg
              ((WorkflowEngine.get_next_nodes wf n output_index).map
                (fun c => (c, result)) ++
                (WorkflowEngine.get_skipped_nodes wf n output_index).map
                  (fun c => (c, WorkflowEngine.SKIP_SIGNAL)))
              ({ st with
                 exec := dictSet st.exec n result
                 log := st.log ++ [n] }, rest)) := by
          unfold WorkflowEngine.processNode
          rw [hnb]
          dsimp only
          rw [hskip]
          simp only [Bool.false_eq_true, if_false]
          rw [hex]
        have hmid := write_midinv net wf inDeg start n st rest result
          ((WorkflowEngine.get_next_nodes wf n output_index).map
            (fun c => (c, result)) ++
            (WorkflowEngine.get_skipped_nodes wf n output_index).map
              (fun c => (c, WorkflowEngine.SKIP_SIGNAL)))
          hTgt hInv
          (Or.inr (Or.inr ⟨nd, st.exec, WorkflowEngine.shapedInput st n nd,
            output_index, hnb, hex⟩))
          (by
            intro c
            rw [List.map_append, List.count_append, map_pair_fst, map_pair_fst]
            exact children_split wf n output_index c)
        have hprop := propagate_midinv net wf inDeg start n hDeg _ _ _ hmid
        refine ⟨_, heq, midinv_to_inv net wf inDeg start n _ _ hprop, ?_⟩
        rw [(propagate_fst inDeg _ _).2]
      | error e =>
        by_cases hc : WorkflowEngine.caughtClass e.cls = true
        · right
          have heq : WorkflowEngine.processNode net wf inDeg n st rest =
              .ok (WorkflowEngine.propagate inDeg
                ((WorkflowEngine.get_all_children wf n).map
                  (fun c => (c, WorkflowEngine.SKIP_SIGNAL)))
                ({ st with
                   exec := dictSet st.exec n (WorkflowEngine.errEntry e.msg)
                   log := st.log ++ [n] }, rest)) := by
            unfold WorkflowEngine.processNode
            rw [hnb]
            dsimp only
            rw [hskip]
            simp only [Bool.false_eq_true, if_false]
            rw [hex]
            dsimp only
            rw [if_pos hc]
          have hmid := write_midinv net wf inDeg start n st rest
            (WorkflowEngine.errEntry e.msg)
            ((WorkflowEngine.get_all_children wf n).map
              (fun c => (c, WorkflowEngine.SKIP_SIGNAL)))
            hTgt hInv (Or.inr (Or.inl ⟨e.msg, rfl⟩))
            (by intro c; rw [map_pair_fst])
          have hprop := propagate_midinv net wf inDeg start n hDeg _ _ _ hmid
          refine ⟨_, heq, midinv_to_inv net wf inDeg start n _ _ hprop, ?_⟩
          rw [(propagate_fst inDeg _ _).2]
        · left
          refine ⟨e, ?_⟩
          rw [Bool.not_eq_true] at hc
          unfold WorkflowEngine.processNode
          rw [hnb]
          dsimp only
          rw [hskip]
          simp only [Bool.false_eq_true, if_false]
          rw [hex]
          dsimp only
          rw [hc]
          simp only [Bool.false_eq_true, if_false]

theorem run_eq (net : Nat → AppTasks.NetResult)
    (wf : WorkflowEngine.WorkflowPayload) (start : String)
    (inDeg : List (String × Nat))
    (hs : WorkflowEngine.findStartName wf = some start)
    (hdi : WorkflowEngine.inDegreeInit wf start = .ok inDeg) :
    WorkflowEngine.run net wf =
      match WorkflowEngine.runLoop net wf inDeg (wf.nodes.length + 1)
          ({ exec := []
             buf := assocSet
               (List.foldl (fun m (nd : WorkflowEngine.Node) =>
                 assocSet m nd.name ([] : List PyVal)) [] wf.nodes)
               start
               (WorkflowEngine.bufGet
                 { exec := []
                   buf := List.foldl (fun m (nd : WorkflowEngine.Node) =>
                     assocSet m nd.name ([] : List PyVal)) [] wf.nodes
                   log := [] } start ++ [PyVal.dict []])
             log := [] } : WorkflowEngine.EngineState) [start] with
      | .error e => .error e
      | .ok Option.none => .ok Option.none
      | .ok (some st2) =>
        .ok (some { st2 with exec := WorkflowEngine.sweep wf st2.exec }) := by
  unfold WorkflowEngine.run
  rw [hs]
  show ((do
      let inDeg ← WorkflowEngine.inDegreeInit wf start
      let buf0 : List (String × List PyVal) :=
        List.foldl (fun m (nd : WorkflowEngine.Node) =>
          assocSet m nd.name ([] : List PyVal)) [] wf.nodes
      let st0 : WorkflowEngine.EngineState := { exec := [], buf := buf0, log := [] }
      let st1 : WorkflowEngine.EngineState :=
        { exec := st0.exec
          buf := assocSet st0.buf start
            (WorkflowEngine.bufGet st0 start ++ [PyVal.dict []])
          log := st0.log }
      let r ← WorkflowEngine.runLoop net wf inDeg (wf.nodes.length + 1) st1 [start]
      match r with
        | Option.none => Except.ok Option.none
        | some st2 => Except.ok (some
            { exec := WorkflowEngine.sweep wf st2.exec
              buf := st2.buf
              log := st2.log })) : Except Exc (Option WorkflowEngine.EngineState)) = _
  rw [hdi, except_ok_bind]
  dsimp only
  cases hr : WorkflowEngine.runLoop net wf inDeg (wf.nodes.length + 1)
      ({ exec := []
         buf := assocSet
           (List.foldl (fun m (nd : WorkflowEngine.Node) =>
             assocSet m nd.name ([] : List PyVal)) [] wf.nodes)
           start
           (WorkflowEngine.bufGet
             { exec := []
               buf := List.foldl (fun m (nd : WorkflowEngine.Node) =>
                 assocSet m nd.name ([] : List PyVal)) [] wf.nodes
               log := [] } start ++ [PyVal.dict []])
         log := [] } : WorkflowEngine.EngineState) [start] with
  | error e => rfl
  | ok r =>
    cases r with
    | none => rfl
    | some st2 => rfl

theorem runLoop_cons (net : Nat → AppTasks.NetResult)
    (wf : WorkflowEngine.WorkflowPayload) (inDeg : List (String × Nat))
    (fuel : Nat) (st : WorkflowEngine.EngineState) (n : String)
    (rest : List String) :
    WorkflowEngine.runLoop net wf inDeg (fuel + 1) st (n :: rest) =
      match WorkflowEngine.processNode net wf inDeg n st rest with
      | .error e => .error e
      | .ok sq => WorkflowEngine.runLoop net wf inDeg fuel sq.1 sq.2 := by
  cases h : WorkflowEngine.processNode net wf inDeg n st rest with
  | error e =>
    show ((do
      let sq ← WorkflowEngine.processNode net wf inDeg n st rest
      match sq with
      | (st2, q2) => WorkflowEngine.runLoop net wf inDeg fuel st2 q2) :
        Except Exc (Option WorkflowEngine.EngineState)) = _
    rw [h, except_error_bind]
  | ok sq =>
    obtain ⟨a, b⟩ := sq
    show ((do
      let sq ← WorkflowEngine.processNode net wf inDeg n st rest
      match sq with
      | (st2, q2) => WorkflowEngine.runLoop net wf inDeg fuel st2 q2) :
        Except Exc (Option WorkflowEngine.EngineState)) = _
    rw [h, except_ok_bind]

/-- The dispatch loop with `nodes + 1` fuel never exhausts its fuel: every
iteration logs a fresh node name, and a duplicate-free log of node names
cannot exceed the node count.  On normal exit the loop invariant holds with
an empty queue. -/
theorem runLoop_inv (net : Nat → AppTasks.NetResult)
    (wf : WorkflowEngine.WorkflowPayload) (inDeg : List (String × Nat))
    (start : String)
    (hDeg : ∀ x, WorkflowEngine.inDegOf inDeg x =
      if x = start then 1
      else if x ∈ WorkflowEngine.names wf then
        (WorkflowEngine.allTargetNames wf.connections).count x
      else 0)
    (hTgt : ∀ t ∈ WorkflowEngine.allTargetNames wf.connections,
      t ∈ WorkflowEngine.names wf) :
    ∀ (fuel : Nat) (st : WorkflowEngine.EngineState) (q : List String),
      WorkflowEngine.Inv net wf inDeg start st q →
      (WorkflowEngine.names wf).length + 1 ≤ st.log.length + fuel →
      WorkflowEngine.runLoop net wf inDeg fuel st q ≠ .ok Option.none ∧
      ∀ st2, WorkflowEngine.runLoop net wf inDeg fuel st q = .ok (some st2) →
        WorkflowEngine.Inv net wf inDeg start st2 [] := by
  intro fuel
  induction fuel with
  | zero =>
    intro st q hInv hlen
    have hnodup : st.log.Nodup := (List.nodup_append.mp hInv.nodupLogQ).1
    have hsub : st.log ⊆ WorkflowEngine.names wf := fun a ha => hInv.logNames a ha
    have hle := (List.subperm_of_subset hnodup hsub).length_le
    exact absurd hlen (by omega)
  | succ fuel ih =>
    intro st q hInv hlen
    cases q with
    | nil =>
      have heq : WorkflowEngine.runLoop net wf inDeg (fuel + 1) st [] =
          .ok (some st) := rfl
      rw [heq]
      constructor
      · intro hc
        injection hc with h2
        cases h2
      · intro st2 h2
        injection h2 with h3
        injection h3 with h4
        rw [← h4]
        exact hInv
    | cons n rest =>
      rw [runLoop_cons]
      rcases processNode_inv net wf inDeg start n st rest hDeg hTgt hInv with
        ⟨e, he⟩ | ⟨sq, hok, hInv2, hlog⟩
      · rw [he]
        constructor
        · intro hc
          cases hc
        · intro st2 h2
          cases h2
      · rw [hok]
        have hlen2 : (WorkflowEngine.names wf).length + 1 ≤ sq.1.log.length + fuel := by
          rw [hlog]
          simp only [List.length_append, List.length_singleton]
          omega
        exact ih sq.1 sq.2 hInv2 hlen2

/-- The loop invariant holds at loop entry: empty state, the start node's
buffer seeded with `{}` and the start node queued. -/
theorem init_inv (net : Nat → AppTasks.NetResult)
    (wf : WorkflowEngine.WorkflowPayload) (inDeg : List (String × Nat))
    (start : String)
    (hDeg : ∀ x, WorkflowEngine.inDegOf inDeg x =
      if x = start then 1
      else if x ∈ WorkflowEngine.names wf then
        (WorkflowEngine.allTargetNames wf.connections).count x
      else 0)
    (hstart : start ∈ WorkflowEngine.names wf)
    (b : List (String × List PyVal))
    (hb : ∀ c, (assocGet b c).getD ([] : List PyVal) = []) :
    WorkflowEngine.Inv net wf inDeg start
      { exec := []
        buf := assocSet b start
          (WorkflowEngine.bufGet { exec := [], buf := b, log := [] } start ++
            [PyVal.dict []])
        log := [] } [start] := by
  have hb0 : WorkflowEngine.bufGet
      { exec := [], buf := b, log := ([] : List String) } start = [] := hb start
  have hbuf1 : ∀ c, WorkflowEngine.bufGet
      { exec := []
        buf := assocSet b start
          (WorkflowEngine.bufGet { exec := [], buf := b, log := [] } start ++
            [PyVal.dict []])
        log := ([] : List String) } c =
      if start = c then [PyVal.dict []] else [] := by
    intro c
    unfold WorkflowEngine.bufGet
    dsimp only
    rw [assocGet_set]
    by_cases hc : start = c
    · rw [if_pos hc, if_pos hc]
      rw [hb start]
      rfl
    · rw [if_neg hc, if_neg hc]
      exact hb c
  refine ⟨?_, ?_, ?_, ?_, ?_, ?_, ?_, ?_, ?_⟩
  · simp
  · intro x hx
    exact absurd hx (List.not_mem_nil x)
  · intro x hx
    rcases List.mem_singleton.mp hx with rfl
    exact hstart
  · rfl
  · intro c
    rw [hbuf1 c]
    by_cases hc : start = c
    · rw [if_pos hc]
      unfold WorkflowEngine.startInit WorkflowEngine.sumLog
      rw [if_pos hc.symm]
      rfl
    · rw [if_neg hc]
      unfold WorkflowEngine.startInit WorkflowEngine.sumLog
      rw [if_neg (fun he => hc he.symm)]
      rfl
  · intro c hc
    rcases List.mem_singleton.mp hc with rfl
    rw [hbuf1 c, if_pos rfl, hDeg c, if_pos rfl]
    rfl
  · intro c hc
    exact absurd hc (List.not_mem_nil c)
  · intro _
    exact ⟨rfl, rfl⟩
  · intro c hc
    exact absurd hc (List.not_mem_nil c)

theorem sweep_eq_foldl (wf : WorkflowEngine.WorkflowPayload)
    (ex : List (String × PyVal)) :
    WorkflowEngine.sweep wf ex =
      (WorkflowEngine.names wf).foldl WorkflowEngine.sweepStep ex := by
  unfold WorkflowEngine.sweep WorkflowEngine.names
  rw [List.foldl_map]
  rfl

/-- The sweep never touches an existing entry. -/
theorem sweepGo_get_some :
    ∀ (ns : List String) (ex : List (String × PyVal)) (c : String) (v : PyVal),
      dictGet ex c = some v →
      dictGet (ns.foldl WorkflowEngine.sweepStep ex) c = some v := by
  intro ns
  induction ns with
  | nil =>
    intro ex c v h
    exact h
  | cons nm rest ih =>
    intro ex c v h
    rw [List.foldl_cons]
    apply ih
    unfold WorkflowEngine.sweepStep
    by_cases hs : (dictGet ex nm).isSome = true
    · rw [if_pos hs]
      exact h
    · rw [if_neg hs]
      have hnm : ¬ nm = c := by
        intro he
        subst he
        rw [h] at hs
        exact hs rfl
      rw [dictGet_set, if_neg hnm]
      exact h

/-- A swept-in node gets exactly the cycle error. -/
theorem sweepGo_get_missing :
    ∀ (ns : List String) (ex : List (String × PyVal)) (c : String),
      dictGet ex c = Option.none → c ∈ ns →
      dictGet (ns.foldl WorkflowEngine.sweepStep ex) c =
        some WorkflowEngine.cycleErr := by
  intro ns
  induction ns with
  | nil =>
    intro ex c _ hc
    cases hc
  | cons nm SwRest ih =>
    intro ex c h hc
    rw [List.foldl_cons]
    by_cases hnmc : nm = c
    · subst hnmc
      have hstep : WorkflowEngine.sweepStep ex nm =
          dictSet ex nm WorkflowEngine.cycleErr := by
        unfold WorkflowEngine.sweepStep
        rw [h]
        rfl
      rw [hstep]
      apply sweepGo_get_some
      rw [dictGet_set, if_pos rfl]
    · rcases List.mem_cons.mp hc with he | hc2
      · exact absurd he.symm hnmc
      · apply ih
        · unfold WorkflowEngine.sweepStep
          by_cases hs : (dictGet ex nm).isSome = true
          · rw [if_pos hs]
            exact h
          · rw [if_neg hs, dictGet_set, if_neg hnmc]
            exact h
        · exact hc2

/-- The sweep adds no entry for a non-node key. -/
theorem sweepGo_get_absent :
    ∀ (ns : List String) (ex : List (String × PyVal)) (c : String),
      dictGet ex c = Option.none → c ∉ ns →
      dictGet (ns.foldl WorkflowEngine.sweepStep ex) c = Option.none := by
  intro ns
  induction ns with
  | nil =>
    intro ex c h _
    exact h
  | cons nm rest ih =>
    intro ex c h hc
    rw [List.foldl_cons]
    have hnmc : ¬ nm = c := by
      intro he
      exact hc (by rw [← he]; exact List.mem_cons_self nm rest)
    apply ih
    · unfold WorkflowEngine.sweepStep
      by_cases hs : (dictGet ex nm).isSome = true
      · rw [if_pos hs]
        exact h
      · rw [if_neg hs, dictGet_set, if_neg hnmc]
        exact h
    · exact fun h2 => hc (List.mem_cons_of_mem _ h2)

/-- The keys after the sweep: the existing keys followed by the missing
node names, in node order. -/
theorem sweepGo_keys :
    ∀ (ns : List String) (ex : List (String × PyVal)), ns.Nodup →
      (ns.foldl WorkflowEngine.sweepStep ex).map Prod.fst =
        ex.map Prod.fst ++ ns.filter (fun m => (dictGet ex m).isNone) := by
  intro ns
  induction ns with
  | nil =>
    intro ex _
    simp
  | cons nm rest ih =>
    intro ex hnd
    rw [List.foldl_cons, List.filter_cons]
    by_cases hn : dictGet ex nm = Option.none
    · have hstep : WorkflowEngine.sweepStep ex nm =
          dictSet ex nm WorkflowEngine.cycleErr := by
        unfold WorkflowEngine.sweepStep
        rw [hn]
        rfl
      rw [hstep, ih _ (List.nodup_cons.mp hnd).2,
        dictSet_keys_absent ex nm _ hn]
      have hfeq : rest.filter
            (fun m => (dictGet (dictSet ex nm WorkflowEngine.cycleErr) m).isNone) =
          rest.filter (fun m => (dictGet ex m).isNone) := by
        apply List.filter_congr
        intro m hm
        have hmnm : ¬ nm = m := by
          intro he
          apply (List.nodup_cons.mp hnd).1
          rw [he]
          exact hm
        rw [dictGet_set, if_neg hmnm]
      rw [hfeq, hn]
      simp
    · obtain ⟨v, hv⟩ : ∃ v, dictGet ex nm = some v := by
        cases h2 : dictGet ex nm
        · exact absurd h2 hn
        · exact ⟨_, rfl⟩
      have hstep : WorkflowEngine.sweepStep ex nm = ex := by
        unfold WorkflowEngine.sweepStep
        rw [hv]
        rfl
      rw [hstep, ih _ (List.nodup_cons.mp hnd).2, hv]
      simp

theorem run_eq_err (net : Nat → AppTasks.NetResult)
    (wf : WorkflowEngine.WorkflowPayload) (start : String) (e : Exc)
    (hs : WorkflowEngine.findStartName wf = some start)
    (hdi : WorkflowEngine.inDegreeInit wf start = .error e) :
    WorkflowEngine.run net wf = .error e := by
  unfold WorkflowEngine.run
  rw [hs]
  show ((do
      let inDeg ← WorkflowEngine.inDegreeInit wf start
      let buf0 : List (String × List PyVal) :=
        List.foldl (fun m (nd : WorkflowEngine.Node) =>
          assocSet m nd.name ([] : List PyVal)) [] wf.nodes
      let st0 : WorkflowEngine.EngineState := { exec := [], buf := buf0, log := [] }
      let st1 : WorkflowEngine.EngineState :=
        { exec := st0.exec
          buf := assocSet st0.buf start
            (WorkflowEngine.bufGet st0 start ++ [PyVal.dict []])
          log := st0.log }
      let r ← WorkflowEngine.runLoop net wf inDeg (wf.nodes.length + 1) st1 [start]
      match r with
        | Option.none => Except.ok Option.none
        | some st2 => Except.ok (some
            { exec := WorkflowEngine.sweep wf st2.exec
              buf := st2.buf
              log := st2.log })) : Except Exc (Option WorkflowEngine.EngineState)) = _
  rw [hdi, except_error_bind]

/-- C3: for a workflow with distinct node names, `run()` never exhausts its
fuel, and whenever it returns normally every node of the workflow has
exactly one `execution_state` entry, each written at most once during the
loop (the write log is duplicate-free): an executed node holds its
handler's result, the skip marker `{status: "skipped"}` or an
`{error: ...}` entry, a never-executed node holds exactly the
`Node never executed (possible cycle or missing input)` error, and no entry
exists for a non-node name. -/
theorem c3_state_coverage (net : Nat → AppTasks.NetResult)
    (wf : WorkflowEngine.WorkflowPayload)
    (h1 : (WorkflowEngine.names wf).Nodup) :
    WorkflowEngine.run net wf ≠ .ok Option.none ∧
    ∀ st, WorkflowEngine.run net wf = .ok (some st) →
      st.log.Nodup ∧
      (∀ c ∈ WorkflowEngine.names wf, (st.exec.map Prod.fst).count c = 1) ∧
      (∀ c, c ∉ WorkflowEngine.names wf → dictGet st.exec c = Option.none) ∧
      (∀ c ∈ WorkflowEngine.names wf, c ∉ st.log →
        dictGet st.exec c = some WorkflowEngine.cycleErr) ∧
      (∀ c ∈ st.log, WorkflowEngine.NodeVal net wf c (dictGet st.exec c)) := by
  cases hs : WorkflowEngine.findStartName wf with
  | none =>
    have hrun : WorkflowEngine.run net wf = .error
        ⟨.valueError, "Invalid Workflow: No \x27manual_trigger\x27 node found."⟩ := by
      unfold WorkflowEngine.run
      rw [hs]
    rw [hrun]
    exact ⟨fun hc => Except.noConfusion hc, fun st hc => Except.noConfusion hc⟩
  | some start =>
    cases hdi : WorkflowEngine.inDegreeInit wf start with
    | error e =>
      have hrun := run_eq_err net wf start e hs hdi
      rw [hrun]
      exact ⟨fun hc => Except.noConfusion hc, fun st hc => Except.noConfusion hc⟩
    | ok inDeg =>
      obtain ⟨m0, hm0, hset⟩ := inDegreeInit_ok_elim wf start inDeg hdi
      have hTgt := computeInDegree_ok_targets wf m0 hm0
      obtain ⟨m, hm, hget⟩ := inDegreeInit_spec wf start hTgt
      have hmeq : inDeg = m := by
        rw [hdi] at hm
        injection hm with h2
      have hDeg : ∀ x, WorkflowEngine.inDegOf inDeg x =
          if x = start then 1
          else if x ∈ WorkflowEngine.names wf then
            (WorkflowEngine.allTargetNames wf.connections).count x
          else 0 := by
        intro x
        rw [hmeq, inDegOf_def, hget x]
        by_cases hx : x = start
        · rw [if_pos hx, if_pos hx]
          rfl
        · rw [if_neg hx, if_neg hx]
          by_cases hx2 : x ∈ WorkflowEngine.names wf
          · rw [if_pos hx2, if_pos hx2]
            rfl
          · rw [if_neg hx2, if_neg hx2]
            rfl
      have hstart := findStart_mem wf start hs
      have hInv0 := init_inv net wf inDeg start hDeg hstart
        (List.foldl (fun m (nd : WorkflowEngine.Node) =>
          assocSet m nd.name ([] : List PyVal)) [] wf.nodes)
        (bufInit_get wf)
      have hrun := run_eq net wf start inDeg hs hdi
      obtain ⟨hnn, hsome⟩ := runLoop_inv net wf inDeg start hDeg hTgt
        (wf.nodes.length + 1) _ [start] hInv0
        (by simp [WorkflowEngine.names])
      cases hrl : WorkflowEngine.runLoop net wf inDeg (wf.nodes.length + 1)
          ({ exec := []
             buf := assocSet
               (List.foldl (fun m (nd : WorkflowEngine.Node) =>
                 assocSet m nd.name ([] : List PyVal)) [] wf.nodes)
               start
               (WorkflowEngine.bufGet
                 { exec := []
                   buf := List.foldl (fun m (nd : WorkflowEngine.Node) =>
                     assocSet m nd.name ([] : List PyVal)) [] wf.nodes
                   log := [] } start ++ [PyVal.dict []])
             log := [] } : WorkflowEngine.EngineState) [start] with
      | error e =>
        rw [hrl] at hrun
        dsimp only at hrun
        rw [hrun]
        exact ⟨fun hc => Except.noConfusion hc, fun st hc => Except.noConfusion hc⟩
      | ok r =>
        cases r with
        | none => exact absurd hrl hnn
        | some st2 =>
          rw [hrl] at hrun
          dsimp only at hrun
          have hInv2 := hsome st2 hrl
          have hlogN : st2.log.Nodup := by
            have := hInv2.nodupLogQ
            simpa using this
          have hEK := hInv2.execKeys
          have hLN := hInv2.logNames
          have hPV := hInv2.prov
          have hkeys : (WorkflowEngine.sweep wf st2.exec).map Prod.fst =
              st2.log ++ (WorkflowEngine.names wf).filter
                (fun m => (dictGet st2.exec m).isNone) := by
            rw [sweep_eq_foldl, sweepGo_keys (WorkflowEngine.names wf) st2.exec h1,
              hEK]
          rw [hrun]
          refine ⟨?_, ?_⟩
          · intro hc
            injection hc with h2
            cases h2
          · intro st hst
            injection hst with h2
            injection h2 with h3
            rw [← h3]
            refine ⟨hlogN, ?_, ?_, ?_, ?_⟩
            · intro c hc
              dsimp only
              rw [hkeys, List.count_append]
              by_cases hcl : c ∈ st2.log
              · have hc1 : st2.log.count c = 1 :=
                  List.count_eq_one_of_mem hlogN hcl
                have hcs : dictGet st2.exec c ≠ Option.none := by
                  intro heq
                  rw [dictGet_none_iff, hEK] at heq
                  exact heq hcl
                have hnotf : c ∉ (WorkflowEngine.names wf).filter
                    (fun m => (dictGet st2.exec m).isNone) := by
                  intro hf
                  have hin := (List.mem_filter.mp hf).2
                  rw [Option.isNone_iff_eq_none] at hin
                  exact hcs hin
                rw [hc1, List.count_eq_zero.mpr hnotf]
              · have hnone : dictGet st2.exec c = Option.none := by
                  rw [dictGet_none_iff, hEK]
                  exact hcl
                have hc0 : st2.log.count c = 0 := List.count_eq_zero.mpr hcl
                have hfmem : c ∈ (WorkflowEngine.names wf).filter
                    (fun m => (dictGet st2.exec m).isNone) :=
                  List.mem_filter.mpr ⟨hc, by rw [hnone]; rfl⟩
                have hfc : ((WorkflowEngine.names wf).filter
                    (fun m => (dictGet st2.exec m).isNone)).count c = 1 :=
                  List.count_eq_one_of_mem (h1.filter _) hfmem
                rw [hc0, hfc]
            · intro c hc
              dsimp only
              have hcl : c ∉ st2.log := fun h4 => hc (hLN c h4)
              have hnone : dictGet st2.exec c = Option.none := by
                rw [dictGet_none_iff, hEK]
                exact hcl
              rw [sweep_eq_foldl]
              exact sweepGo_get_absent _ _ _ hnone hc
            · intro c hc hcl
              dsimp only at hcl ⊢
              have hnone : dictGet st2.exec c = Option.none := by
                rw [dictGet_none_iff, hEK]
                exact hcl
              rw [sweep_eq_foldl]
              exact sweepGo_get_missing _ _ _ hnone hc
            · intro c hcl
              dsimp only at hcl ⊢
              obtain ⟨v, hv, hdisj⟩ := hPV c hcl
              refine ⟨v, ?_, hdisj⟩
              rw [sweep_eq_foldl]
              exact sweepGo_get_some _ _ _ _ hv

theorem c3_state_coverage_witness :
    (WorkflowEngine.names Fixtures.wfW).Nodup ∧
    WorkflowEngine.run Fixtures.net0 Fixtures.wfW = .ok (some
      { exec := [("trigger", PyVal.dict []), ("show", PyVal.str "hi"),
          ("island", WorkflowEngine.cycleErr)]
        buf := [("trigger", [PyVal.dict []]), ("show", [PyVal.dict []]),
          ("island", [])]
        log := ["trigger", "show"] }) ∧
    (WorkflowEngine.run Fixtures.net0 Fixtures.wfW ≠ .ok Option.none ∧
     ∀ st, WorkflowEngine.run Fixtures.net0 Fixtures.wfW = .ok (some st) →
       st.log.Nodup ∧
       (∀ c ∈ WorkflowEngine.names Fixtures.wfW,
         (st.exec.map Prod.fst).count c = 1) ∧
       (∀ c, c ∉ WorkflowEngine.names Fixtures.wfW →
         dictGet st.exec c = Option.none) ∧
       (∀ c ∈ WorkflowEngine.names Fixtures.wfW, c ∉ st.log →
         dictGet st.exec c = some WorkflowEngine.cycleErr) ∧
       (∀ c ∈ st.log,
         WorkflowEngine.NodeVal Fixtures.net0 Fixtures.wfW c
           (dictGet st.exec c))) :=
  ⟨by decide, rfl, c3_state_coverage Fixtures.net0 Fixtures.wfW (by decide)⟩
